import Mathlib

/-!
# Verification of the `fs-go` in-memory filesystem

Shallow embedding of the `transientvariable/fs-go` repository: the `fs`
package (attributes, entries, path helpers) and the `memfs` package
(in-memory filesystem, file handles, buffer growth).

Modelling conventions:
* Byte buffers are `List Nat` (one `Nat` per byte).  In every state reachable
  through the `memfs` API the Go slice `fd.data` has `len == cap` (it is either
  `nil` or the result of `make([]byte, c)` in `File.grow`), so a single list
  whose length is both the length and the capacity is a faithful model.
* `time.Time` values are modelled as `Nat`, with `0` playing the role of the
  zero `time.Time` (`IsZero`), `<` playing `Before` and `=` playing `Equal`.
* Go's `int` is 64-bit here; `fs.MaxContentLen = int(^uint(0) >> 1) = 2^63-1`.
* Fallible operations return `Except Err α`; Go runtime panics (slice bounds,
  failed type assertions) are modelled by the dedicated error values
  `Err.sliceOutOfRange` / `Err.invalidCast`, which the real program does NOT
  return as errors — it crashes.
-/

namespace FsGo


/-- Errors of the embedding.  The first block mirrors the `fsError` constants in
`error.go` and the `io/fs` sentinel errors; `eof` is `io.EOF`; the final two
model Go runtime panics (not returned errors). -/
inductive Err where
  | notExist
  | exist
  | invalid
  | closed
  | isDirErr
  | notDir
  | notFile
  | tooLarge
  | mtimeMismatch
  | ctimeMismatch
  | writeOnly
  | readOnly
  | notImplemented
  | nilReader
  | eof
  | diverge
  | sliceOutOfRange
  | invalidCast
  deriving DecidableEq, Repr

/-- Go's `copy(dst, src)`: overwrites the first `min |dst| |src|` entries of
`dst` with those of `src`, returning the new contents of `dst`.  The number of
bytes copied is `min dst.length src.length`. -/
def goCopy (dst src : List Nat) : List Nat :=
  src.take (min dst.length src.length) ++ dst.drop (min dst.length src.length)

/-- Go's `copy(dst[off:], src)` for `off ≤ dst.length`: the contents of `dst`
after copying `src` into it starting at offset `off`. -/
def goCopyAt (dst : List Nat) (off : Nat) (src : List Nat) : List Nat :=
  dst.take off ++ goCopy (dst.drop off) src

/-- Number of bytes `copy(dst[off:], src)` reports as copied. -/
def goCopyAtLen (dst : List Nat) (off : Nat) (src : List Nat) : Nat :=
  min (dst.length - off) src.length

/-! ### IEEE-754 binary32 arithmetic for the growth factor

`File.grow` computes `int(growthFactor * float32(currentCap+n))` where
`growthFactor = float32(1.618)`.  We model this exactly:
`float32(1.618) = 13572768 / 2^23` (the nearest binary32 to 1.618), `float32`
of an integer rounds its significand to 24 bits (nearest, ties to even), the
product is again rounded to 24 significant bits, and `int(...)` truncates. -/

/-- Fuel-bounded bit length: `bitSize fuel n` is the number of binary digits of
`n`, correct whenever `n < 2^fuel`. -/
def bitSize : Nat → Nat → Nat
  | 0, _ => 0
  | fuel + 1, n => if n = 0 then 0 else bitSize fuel (n / 2) + 1

/-- Round `x / 2^s` to the nearest integer, ties to even (the IEEE-754
significand rounding used by Go's float32 conversions and multiplication). -/
def roundMantissa (x s : Nat) : Nat :=
  if s = 0 then x
  else
    let q := x / 2 ^ s
    let r := x % 2 ^ s
    if 2 ^ (s - 1) < r ∨ (r = 2 ^ (s - 1) ∧ q % 2 = 1) then q + 1 else q

/-- The binary32 significand of `float32(1.618)`:
`float32(1.618) = gfNum / 2^23 = 1.61800003051757…`. -/
def gfNum : Nat := 13572768

/-- Shift needed to bring a positive integer down to a 24-bit binary32
significand (0 when it already fits in 24 bits, in which case rounding by the
shift is the identity). -/
def shift24 (y : Nat) : Nat :=
  if bitSize 64 y ≤ 24 then 0 else bitSize 64 y - 24

/-- Conversion `float32(x)` for a nonnegative Go `int` `x`, as a pair `(m, e)`
with value `m * 2^e` (for `x < 2^24` the conversion is exact). -/
def f32round (x : Nat) : Nat × Nat :=
  (roundMantissa x (shift24 x), shift24 x)

/-- The value `int(growthFactor * float32(x))` from `File.grow`: multiply
`float32(1.618) = gfNum / 2^23` by `float32(x)`, round the product to binary32
(24 significant bits, nearest/ties-to-even), truncate toward zero. -/
def growCap (x : Nat) : Nat :=
  let m := (f32round x).1
  let e := (f32round x).2
  let num := gfNum * m
  roundMantissa num (shift24 num) * 2 ^ (shift24 num + e) / 2 ^ 23

/-! ### Metadata: `Attribute` (attribute.go) and `Entry` (entry.go of the `fs` package)

Only the fields the verified operations read or write are carried
(`ctime`, `mtime`, `mode`, `size`); the remaining `Attribute` fields
(uid/gid/owner/group/inode/mime type) are never consulted by any operation
modelled here.  `mode` is the `io/fs.FileMode` bit set; `ModeDir = 1 << 31`. -/

structure Attribute where
  ctime : Nat
  mtime : Nat
  mode : Nat
  size : Nat
  deriving DecidableEq, Repr

/-- Bit `io/fs.ModeDir = 1 << 31`. -/
def modeDir : Nat := 2 ^ 31

/-- Constructor `NewAttributes` (attribute.go): apply the options (the result
of which is the `a` argument, starting from the zero `Attribute`), default
`ctime` to the current time, and reject a nonzero `mtime` earlier than
`ctime` with `ErrCtimeMismatch`. -/
def newAttributes (now : Nat) (a : Attribute) : Except Err Attribute :=
  let a := if a.ctime = 0 then { a with ctime := now } else a
  if a.mtime ≠ 0 ∧ a.mtime < a.ctime then .error .ctimeMismatch else .ok a

/-- Go strings, modelled as their character sequences (Lean's `String`
primitives do not evaluate inside the kernel; a character list is an equally
faithful rendering of a Go string and computes). -/
abbrev GoStr := List Char

/-- Container for file and directory metadata (`Entry` in entry.go of the
`fs` package).  Entries in `memfs` are always created with a single-segment
(base) name as their path, so `Name()` (= `gopath.Base(path)`) coincides with
`path` for every entry this model builds. -/
structure Entry where
  path : GoStr
  attrs : Attribute
  deriving DecidableEq, Repr

/-- Method `Entry.IsDir`: whether the `ModeDir` bit is set. -/
def Entry.isDir (e : Entry) : Bool := Nat.testBit e.attrs.mode 31

/-- Method `Entry.SetModTime` (entry.go): a zero or unchanged time is a no-op;
a time earlier than the current modification time is rejected with
`ErrMtimeMismatch`; otherwise the modification time is replaced.  (`t.UTC()`
does not change the instant and is dropped; note the creation time is never
consulted.) -/
def Entry.setModTime (e : Entry) (t : Nat) : Except Err Entry :=
  if t = 0 ∨ t = e.attrs.mtime then .ok e
  else if t < e.attrs.mtime then .error .mtimeMismatch
  else .ok { e with attrs := { e.attrs with mtime := t } }

/-- Method `Entry.SetSize` (entry.go): sets the size unless the entry is a
directory. -/
def Entry.setSize (e : Entry) (s : Nat) : Entry :=
  if e.isDir then e else { e with attrs := { e.attrs with size := s } }

/-! ### File descriptors and handles (memfs/entry.go, memfs fd file)

The `fd` struct holds the byte buffer and the metadata entry of one file.
Its `dir *MemFS` back-reference is consulted only through `fd.dir.entry`
(in `File.Stat`, for handles whose entry is named `"."`), so the model
carries that entry directly as `dirEntry`. -/

structure Fd where
  data : List Nat
  entry : Entry
  dirEntry : Entry
  deriving DecidableEq, Repr

/-- Method `fd.bytes()`: the buffer truncated to the entry's size when that
size is positive, and the WHOLE buffer (not the empty prefix) when the size
is zero.  (In reachable states `entry.size ≤ data.length`; Go would panic on
`d.data[:size]` otherwise, which `List.take` silently clamps.) -/
def Fd.bytes (d : Fd) : List Nat :=
  if 0 < d.entry.attrs.size then d.data.take d.entry.attrs.size else d.data

/-- Open flags (values of the linux `os` package constants used by fs.go). -/
def O_RDONLY : Nat := 0

def O_WRONLY : Nat := 1

def O_RDWR : Nat := 2

def O_CREATE : Nat := 64

def O_TRUNC : Nat := 512

/-- Constant `fs.MaxContentLen = int(^uint(0) >> 1)` on a 64-bit platform. -/
def maxContentLen : Nat := 2 ^ 63 - 1

/-- Handle state (`File` struct in memfs/entry.go): closed flag, open flags,
read and write cursors, and the file descriptor.  (Cursors are `int64` in Go
but only ever hold nonnegative values: they start at 0, `Read`/`Write`
advance them by copy counts, and `Seek` rejects negative results.) -/
structure File where
  closed : Bool
  fd : Fd
  flag : Nat
  rOff : Nat
  wOff : Nat
  deriving DecidableEq, Repr

/-- Function `newFile(fd, flag)` (memfs/entry.go): with `O_TRUNC` the entry
size is reset to 0 (the `bytes.Buffer` built from `fd.data` is unused by the
rest of the code and is dropped); cursors start at 0. -/
def newFile (fd : Fd) (flag : Nat) : File :=
  let fd := if flag &&& O_TRUNC ≠ 0 then { fd with entry := fd.entry.setSize 0 } else fd
  { closed := false, fd := fd, flag := flag, rOff := 0, wOff := 0 }

/-- Method `File.Close`: the first close of a live handle succeeds and marks
it closed; closing an already-closed handle fails with `fs.ErrClosed`. -/
def File.close (f : File) : Except Err File :=
  if f.closed = false then .ok { f with closed := true }
  else .error .closed

/-- Method `File.Stat`: fails with `fs.ErrClosed` on a closed handle;
for the `"."` descriptor of a directory it reports the owning directory's
entry (`f.fd.dir.entry`), otherwise the descriptor's own entry. -/
def File.stat (f : File) : Except Err Entry :=
  if f.closed then .error .closed
  else if f.fd.entry.path = ['.'] then .ok f.fd.dirEntry
  else .ok f.fd.entry

/-- Helper `File.checkRegularFile`: `Stat`, then reject directories. -/
def File.checkRegularFile (f : File) : Except Err Entry :=
  match f.stat with
  | .error e => .error e
  | .ok fi => if fi.isDir then .error .isDirErr else .ok fi

/-- Helper `File.checkRead`: regular-file check, then reject handles whose
flag set is exactly `O_WRONLY`. -/
def File.checkRead (f : File) : Except Err Entry :=
  match f.checkRegularFile with
  | .error e => .error e
  | .ok fi => if f.flag = O_WRONLY then .error .writeOnly else .ok fi

/-- Helper `File.checkWrite`: regular-file check, then reject handles whose
flag set is exactly `O_RDONLY`. -/
def File.checkWrite (f : File) : Except Err Entry :=
  match f.checkRegularFile with
  | .error e => .error e
  | .ok fi => if f.flag = O_RDONLY then .error .readOnly else .ok fi

/-- Method `File.grow(n)` (memfs/entry.go:339-351), acting on the buffer:
when `len(data) + n` reaches the current capacity (`cap = len` in every
reachable state, so this always fires), allocate `int(1.618f * float32(cap+n))`
zero bytes and copy the old buffer in; fail with `fs.ErrTooLarge` when
`c > MaxContentLen - c - n` (equivalently `2c + n > MaxContentLen`). -/
def grow (data : List Nat) (n : Nat) : Except Err (List Nat) :=
  let currentCap := data.length
  if currentCap ≤ data.length + n then
    let c := growCap (currentCap + n)
    if maxContentLen < c + c + n then .error .tooLarge
    else .ok (goCopy (List.replicate c 0) data)
  else .ok data

/-- Method `File.Read(b)` for a buffer of length `bl`: after `checkRead`,
an empty buffer short-circuits to `(0, nil)`; at or past the logical size the
result is `(0, io.EOF)`; otherwise bytes are copied from `bytes()[rOff:]` and
the read cursor advances.  The copied bytes stand for the filled prefix of
`b`; the returned count is their length. -/
def File.read (f : File) (bl : Nat) : (List Nat × Option Err) × File :=
  match f.checkRead with
  | .error e => (([], some e), f)
  | .ok fi =>
    if bl = 0 then (([], none), f)
    else if fi.attrs.size ≤ f.rOff then (([], some .eof), f)
    else
      let chunk := (f.fd.bytes.drop f.rOff).take bl
      ((chunk, none), { f with rOff := f.rOff + chunk.length })

/-- Method `File.ReadAt(b, off)` for a buffer of length `bl`: after
`checkRead` and the empty-buffer short-circuit, Go evaluates
`f.fd.bytes()[off:]`, which PANICS (slice bounds out of range) whenever
`off < 0` or `off > len(bytes())`; otherwise it copies from the absolute
offset and reports `io.EOF` alongside a short count. -/
def File.readAt (f : File) (bl : Nat) (off : Int) : List Nat × Option Err :=
  match f.checkRead with
  | .error e => ([], some e)
  | .ok _ =>
    if bl = 0 then ([], none)
    else if off < 0 ∨ (f.fd.bytes.length : Int) < off then ([], some .sliceOutOfRange)
    else
      let chunk := (f.fd.bytes.drop off.toNat).take bl
      if chunk.length < bl then (chunk, some .eof) else (chunk, none)

/-- Method `File.Write(p)` (memfs/entry.go:264-284): after `checkWrite`,
grow the buffer, copy `p` at the write cursor, advance the cursor, update the
modification time (propagating its error together with the count), and set
the entry size to the new write cursor. -/
def File.write (f : File) (p : List Nat) (now : Nat) : (Nat × Option Err) × File :=
  match f.checkWrite with
  | .error e => ((0, some e), f)
  | .ok _ =>
    match grow f.fd.data p.length with
    | .error e => ((0, some e), f)
    | .ok data1 =>
      let n := goCopyAtLen data1 f.wOff p
      let data2 := goCopyAt data1 f.wOff p
      let w := f.wOff + n
      match f.fd.entry.setModTime now with
      | .error e => ((n, some e), { f with fd := { f.fd with data := data2 }, wOff := w })
      | .ok e1 =>
        ((n, none),
          { f with fd := { f.fd with data := data2, entry := e1.setSize w }, wOff := w })

/-! ### Concrete sample states used by counterexamples and witnesses -/

/-- Entry of a root directory as built by `New()` (mode `0664 | ModeDir`,
created at time 1). -/
def rootEntry0 : Entry :=
  { path := ['/'], attrs := { ctime := 1, mtime := 0, mode := modeDir + 436, size := 0 } }

/-- A regular-file entry of logical size `s` named `"a"`. -/
def fileEntryA (s : Nat) : Entry :=
  { path := ['a'], attrs := { ctime := 1, mtime := 0, mode := 436, size := s } }

/-- Descriptor whose buffer holds one stale byte while the logical size is 0
(the state of a file right after an `O_TRUNC` open). -/
def staleFd : Fd := { data := [7], entry := fileEntryA 0, dirEntry := rootEntry0 }

/-- Read-write handle, fresh cursors, on a file that already records two
written bytes (an open WITHOUT `O_TRUNC` of an existing file). -/
def rwHandle2 : File :=
  { closed := false, flag := O_RDWR, rOff := 0, wOff := 0,
    fd := { data := [7, 8], entry := fileEntryA 2, dirEntry := rootEntry0 } }

/-- Read-only handle on a one-byte file. -/
def roHandle1 : File :=
  { closed := false, flag := O_RDONLY, rOff := 0, wOff := 0,
    fd := { data := [7], entry := fileEntryA 1, dirEntry := rootEntry0 } }

/-- Write-only handle on an empty regular file, with the read cursor already
at the logical end. -/
def woHandle : File :=
  { closed := false, flag := O_WRONLY, rOff := 0, wOff := 0,
    fd := { data := [], entry := fileEntryA 0, dirEntry := rootEntry0 } }

/-! ### Claim C2 — write growth algorithm -/

/-- Capacity formula asserted by the spec: `round(1.618 × (currentCap + n))`
with exact rational arithmetic (`roundHalf a b` is `round (a / b)`; no tie
arises at the inputs considered). -/
def roundHalf (a b : Nat) : Nat := (2 * a + b) / (2 * b)

/-- Capacity the SPEC's growth sentence predicts (claim-side definition, for
comparison with the source-side `growCap`). -/
def specGrowCap (currentCap n : Nat) : Nat := roundHalf (1618 * (currentCap + n)) 1000

/-! ### Claim C4 — modification-time ordering -/

/-- Entry created at time 100 whose modification time was never set. -/
def lateEntry : Entry :=
  { path := ['f'], attrs := { ctime := 100, mtime := 0, mode := 0, size := 0 } }

/-- The same entry after `SetModTime(50)`. -/
def lateEntrySet : Entry :=
  { path := ['f'], attrs := { ctime := 100, mtime := 50, mode := 0, size := 0 } }

/-! ### Path resolution (fs package path helpers)

`CleanPath` trims whitespace, requires `io/fs.ValidPath`, and strips a
trailing separator and a volume name — both no-ops once `ValidPath` holds
(a valid path never ends in `/`, and linux has no volume names).
`SplitPath` splits on the separator and drops empty segments (`ValidPath`
already rules those out except for the path `"."`, which splits to `["."]`). -/

/-- Go `strings.Split(p, "/")` for the one-character separator: cut the
character sequence at every `'/'`, keeping empty pieces. -/
def splitSep : GoStr → List GoStr
  | [] => [[]]
  | c :: rest =>
    if c = '/' then [] :: splitSep rest
    else
      match splitSep rest with
      | s :: ss => (c :: s) :: ss
      | [] => [[c]]

/-- ASCII white space, for `strings.TrimSpace` (Go trims the full Unicode
White_Space class; the ASCII subset covers the characters that can occur in
the modelled paths). -/
def isSpaceGo (c : Char) : Bool :=
  c = ' ' || c = '\t' || c = '\n' || c = '\r' || c = '\x0b' || c = '\x0c'

/-- Go `strings.TrimSpace`. -/
def trimSpace (s : GoStr) : GoStr :=
  ((s.dropWhile isSpaceGo).reverse.dropWhile isSpaceGo).reverse

/-- Go `io/fs.ValidPath`: `"."` is valid; otherwise the path must be nonempty
and every `/`-separated element nonempty and different from `"."`/`".."`
(UTF-8 validity always holds here). -/
def validPath (p : GoStr) : Bool :=
  if p = ['.'] then true
  else if p = [] then false
  else (splitSep p).all fun s => s != [] && s != ['.'] && s != ['.', '.']

/-- Function `fs.CleanPath` (path helpers file of the `fs` package): trim
white space, require `ValidPath`.  The further strips — of one trailing
separator and of a volume name — are no-ops once `ValidPath` holds: a valid
path never ends in `/`, and linux paths have no volume prefix. -/
def cleanPath (p : GoStr) : Except Err GoStr :=
  let q := trimSpace p
  if validPath q then .ok q else .error .invalid

/-- Function `fs.SplitPath`: clean, split on the separator, drop empty
segments. -/
def splitPath (p : GoStr) : Except Err (List GoStr) :=
  match cleanPath p with
  | .error e => .error e
  | .ok q => .ok ((splitSep q).filter fun s => s != [])

/-! ### The namespace tree (memfs)

A `MemFS` value is a directory entry plus its trie of children; a child is
either a content cell (`*fd`) or a nested `*MemFS`.  The trie
(`collection-go`) keeps child names unique (`mkdir`/`newfd` check existence
before `AddEntry`) and is modelled as an association list in insertion
order.  Functions below thread the updated tree explicitly where Go mutates
shared pointers. -/

inductive Node where
  | file (data : List Nat) (entry : Entry)
  | dir (entry : Entry) (children : List (GoStr × Node))
  deriving Repr

/-- Entry of a node (for the `e.entry.IsDir()` tests on `fsEntry`). -/
def Node.nentry : Node → Entry
  | .file _ e => e
  | .dir e _ => e

/-- Trie lookup `entry(mfs, name)`: a miss is `fs.ErrNotExist`. -/
def lookupChild (cs : List (GoStr × Node)) (name : GoStr) : Except Err Node :=
  match cs.find? (fun c => c.1 == name) with
  | some c => .ok c.2
  | none => .error .notExist

/-- Trie insertion `AddEntry` (callers pre-check that the name is absent). -/
def addChild (cs : List (GoStr × Node)) (name : GoStr) (n : Node) :
    List (GoStr × Node) :=
  cs ++ [(name, n)]

/-- Functional stand-in for Go's in-place mutation of a child reached through
a pointer: replace the child bound to `name`. -/
def replaceChild (cs : List (GoStr × Node)) (name : GoStr) (n : Node) :
    List (GoStr × Node) :=
  cs.map fun c => if c.1 == name then (name, n) else c

/-- Resolution `find(mfs, name)` on the split segments, also returning the
entry of the directory that owns the resolved child (Go keeps that owner as
the `fd.dir` back-pointer).  At each level Go rejoins and re-splits the
remaining segments, an identity on clean segments.  Descent happens only when
the child's entry has the directory bit; Go then type-asserts `*MemFS` and
PANICS (`Err.invalidCast`) if the child is a plain `fd`; a non-directory
child with segments remaining is `ErrNotExist`. -/
def findSegP : Entry → List (GoStr × Node) → List GoStr →
    Except Err (Node × Entry)
  | _, _, [] => .error .notExist
  | pe, cs, [s] =>
    match lookupChild cs s with
    | .ok n => .ok (n, pe)
    | .error e => .error e
  | _, cs, s :: rest =>
    match lookupChild cs s with
    | .error e => .error e
    | .ok c =>
      if c.nentry.isDir then
        match c with
        | .dir e2 cs2 => findSegP e2 cs2 rest
        | .file _ _ => .error .invalidCast
      else .error .notExist

/-- Resolution `stat(mfs, name)`: clean, split, resolve (cleaning twice is
idempotent, so `stat`'s own `CleanPath` is absorbed by `splitPath`). -/
def statPath (t : Node) (name : GoStr) : Except Err Node :=
  match t with
  | .file _ _ => .error .notExist
  | .dir e cs =>
    match splitPath name with
    | .error err => .error err
    | .ok segs =>
      match findSegP e cs segs with
      | .ok (n, _) => .ok n
      | .error err => .error err

/-- Constructor `newDir(name, mode)`: a directory entry with mode
`mode | ModeDir` created at `now`, holding its own `"."` content cell (created
through `newfd(mfs, ".", O_CREATE, dir.Mode())`, hence with the same mode).
`NewAttributes` cannot fail here (no initial mtime) and both `name` (a clean
segment, or the separator for the root with its permissive validator) and
`"."` pass entry path validation. -/
def newDirNode (name : GoStr) (mode : Nat) (now : Nat) : Node :=
  let dmode := mode ||| modeDir
  .dir { path := name, attrs := { ctime := now, mtime := 0, mode := dmode, size := 0 } }
    [((['.'] : GoStr), .file [] { path := ['.'], attrs := { ctime := now, mtime := 0, mode := dmode, size := 0 } })]

/-- Constructor `New()`: the root directory, named by the path separator,
mode `0664`. -/
def newMemFS (now : Nat) : Node := newDirNode ['/'] 436 now

/-- Function `mkdir(mfs, name, mode)` in the single-segment form `mkdirAll`
invokes (`mkdirAll` feeds it one clean segment at a time, so the
parent-resolution branch for multi-segment names is not taken): reject `"."`;
fail `ErrNotDir` when the receiver is not a directory; a present child is
`ErrExist`; otherwise create the directory, append it to the trie and update
the parent's modification time.  Go adds the child before `SetModTime`, so on
a time failure the child stays added but the caller only sees the error; the
claims consume only the error, so the partial state is not threaded.
Returns (created child, updated parent entry, updated children). -/
def mkdirChild (parentEntry : Entry) (cs : List (GoStr × Node)) (name : GoStr)
    (mode : Nat) (now : Nat) : Except Err (Node × Entry × List (GoStr × Node)) :=
  if name = ['.'] then .error .invalid
  else if parentEntry.isDir = false then .error .notDir
  else
    match lookupChild cs name with
    | .ok _ => .error .exist
    | .error _ =>
      let d := newDirNode name mode now
      match parentEntry.setModTime now with
      | .error e => .error e
      | .ok pe => .ok (d, pe, addChild cs name d)

/-- Function `mkdirAll(mfs, path, mode)` on the split segments: walk left to
right; an existing entry is type-asserted `*MemFS` (PANIC — `invalidCast` —
when it is a plain file, e.g. for the path `"."` whose entry is the root's
own `"."` cell); a missing one is created by `mkdir`.  Go's loop advances a
`*MemFS` pointer into the shared tree; functionally the rebuilt subtree is
re-attached on the way out. -/
def mkdirAllSeg (e : Entry) (cs : List (GoStr × Node)) (segs : List GoStr)
    (mode : Nat) (now : Nat) : Except Err (Entry × List (GoStr × Node)) :=
  match segs with
  | [] => .ok (e, cs)
  | s :: rest =>
    match lookupChild cs s with
    | .ok (.dir e2 cs2) =>
      match mkdirAllSeg e2 cs2 rest mode now with
      | .error err => .error err
      | .ok (e3, cs3) => .ok (e, replaceChild cs s (.dir e3 cs3))
    | .ok (.file _ _) => .error .invalidCast
    | .error .notExist =>
      match mkdirChild e cs s mode now with
      | .error err => .error err
      | .ok (d, e1, cs1) =>
        match d with
        | .dir de dcs =>
          match mkdirAllSeg de dcs rest mode now with
          | .error err => .error err
          | .ok (e3, cs3) => .ok (e1, replaceChild cs1 s (.dir e3 cs3))
        | .file _ _ => .error .notDir
    | .error err => .error err

/-- Method `MemFS.MkdirAll`: clean the path, then `mkdirAll` (which re-splits
it). -/
def mkdirAllPath (t : Node) (path : GoStr) (mode : Nat) (now : Nat) :
    Except Err Node :=
  match t with
  | .file _ _ => .error .notDir
  | .dir e cs =>
    match splitPath path with
    | .error err => .error err
    | .ok segs =>
      match mkdirAllSeg e cs segs mode now with
      | .error err => .error err
      | .ok (e1, cs1) => .ok (.dir e1 cs1)

/-- Methods `MemFS.Remove` / `RemoveAll` / `Rename` (memfs/entry.go:581-596):
unconditionally a fixed "not implemented" error; the tree is untouched. -/
def removePath (t : Node) (_name : GoStr) : Option Err × Node :=
  (some .notImplemented, t)

/-- See `removePath`. -/
def removeAllPath (t : Node) (_path : GoStr) : Option Err × Node :=
  (some .notImplemented, t)

/-- See `removePath`. -/
def renamePath (t : Node) (_oldpath _newpath : GoStr) : Option Err × Node :=
  (some .notImplemented, t)

/-! ### Opening and creating files (memfs/entry.go `open`, `create`, `newfd`) -/

/-- Functional stand-in for mutating the content cell an open handle shares
with the tree: rebind the node at the path `segs` (every prefix must resolve,
as it does for a location obtained from a successful resolution). -/
def updateAtSeg (cs : List (GoStr × Node)) (segs : List GoStr) (n : Node) :
    Except Err (List (GoStr × Node)) :=
  match segs with
  | [] => .error .notExist
  | [s] =>
    match lookupChild cs s with
    | .ok _ => .ok (replaceChild cs s n)
    | .error e => .error e
  | s :: rest =>
    match lookupChild cs s with
    | .ok (.dir e2 cs2) =>
      match updateAtSeg cs2 rest n with
      | .ok cs2' => .ok (replaceChild cs s (.dir e2 cs2'))
      | .error e => .error e
    | .ok (.file _ _) => .error .notDir
    | .error e => .error e

/-- Entry built by `NewEntry(name)` with `NewAttributes(WithMode(mode))` for a
fresh content cell at clock value `now` (no initial mtime, size 0). -/
def newEntryAt (name : GoStr) (mode now : Nat) : Entry :=
  { path := name, attrs := { ctime := now, mtime := 0, mode := mode, size := 0 } }

/-- Function `newfd(dir, name, flag, mode)` acting on the owning directory's
entry `de` and children `cs`: a missing name is created when `O_CREATE` is
set (`NewAttributes(WithMode(mode))` cannot fail — no initial mtime — and
`NewEntry(name)` validates the name, which the returned error propagates);
an existing plain `fd` is returned as-is; an existing nested `*MemFS` yields
that directory's own `"."` cell, whose `fd.dir` back-pointer is the SUBDIR
(hence `dirEntry` is the subdirectory's entry).  The returned Bool records
the `"."`-redirect (it decides where the cell lives for write-back). -/
def newfdChildren (de : Entry) (cs : List (GoStr × Node)) (name : GoStr)
    (flag mode now : Nat) : Except Err (Fd × List (GoStr × Node) × Bool) :=
  match lookupChild cs name with
  | .error .notExist =>
    if flag &&& O_CREATE ≠ 0 then
      if validPath name then
        let e : Entry := newEntryAt name mode now
        .ok ({ data := [], entry := e, dirEntry := de }, addChild cs name (.file [] e), false)
      else .error .invalid
    else .error .notExist
  | .error e => .error e
  | .ok (.file d fe) => .ok ({ data := d, entry := fe, dirEntry := de }, cs, false)
  | .ok (.dir e2 cs2) =>
    match lookupChild cs2 ['.'] with
    | .ok (.file dd dotE) => .ok ({ data := dd, entry := dotE, dirEntry := e2 }, cs, true)
    | .ok (.dir _ _) => .error .invalidCast
    | .error e => .error e

/-- Function `create(mfs, name, flag, mode)` on the root `(re, rcs)` with the
segments of the (cleaned) missing path: with directory mode bits the path is
`mkdirAll`-ed and its `"."` cell opened; otherwise the parent directories are
created as needed (`filepath.Dir`/`Base` correspond to `dropLast`/last
segment) and `newfd` builds or finds the cell.  Go keeps pointers into the
shared tree; the model re-resolves the created directory (landing on the same
subtree) and re-attaches updated children.  Returns the handle, the updated
root and the cell's location. -/
def createPath (re : Entry) (rcs : List (GoStr × Node)) (segs : List GoStr)
    (flag mode now : Nat) : Except Err (File × Node × List GoStr) :=
  if Nat.testBit mode 31 then
    match mkdirAllSeg re rcs segs mode now with
    | .error e => .error e
    | .ok (re1, rcs1) =>
      match findSegP re1 rcs1 segs with
      | .ok (.dir e2 cs2, _) =>
        match newfdChildren e2 cs2 ['.'] flag mode now with
        | .error e => .error e
        | .ok (fd, cs2', _) =>
          match updateAtSeg rcs1 segs (.dir e2 cs2') with
          | .ok rcs2 => .ok (newFile fd flag, .dir re1 rcs2, segs ++ [['.']])
          | .error e => .error e
      | .ok _ => .error .invalidCast
      | .error e => .error e
  else
    match segs with
    | [] => .error .notExist
    | [s] =>
      match newfdChildren re rcs s flag mode now with
      | .error e => .error e
      | .ok (fd, rcs1, isDot) =>
        .ok (newFile fd flag, .dir re rcs1, if isDot then segs ++ [['.']] else segs)
    | s1 :: s2 :: srest =>
      let front := (s1 :: s2 :: srest).dropLast
      let base := (s1 :: s2 :: srest).getLastD []
      match mkdirAllSeg re rcs front mode now with
      | .error e => .error e
      | .ok (re1, rcs1) =>
        match findSegP re1 rcs1 front with
        | .ok (.dir e2 cs2, _) =>
          match newfdChildren e2 cs2 base flag mode now with
          | .error e => .error e
          | .ok (fd, cs2', isDot) =>
            match updateAtSeg rcs1 front (.dir e2 cs2') with
            | .ok rcs2 =>
              .ok (newFile fd flag, .dir re1 rcs2,
                if isDot then (s1 :: s2 :: srest) ++ [['.']] else s1 :: s2 :: srest)
            | .error e => .error e
        | .ok _ => .error .invalidCast
        | .error e => .error e

/-- Method `MemFS.open(op, name, flag, mode)`: clean the path; resolve it; a
miss with `O_CREATE` goes to `create`; a resolved plain `fd` yields a handle
with the requested flags unless its entry is a directory (then read-only); a
resolved `*MemFS` yields a read-only handle on its `"."` cell
(`newfd(mfs, ".", O_RDONLY, ...)`, which cannot create).  `newFile`'s
`O_TRUNC` zeroes the SHARED entry's size, which the model mirrors into the
tree at the cell's location.  (The code after the `switch` — for a nil entry
with no error — is unreachable: `stat` errors whenever it finds nothing.) -/
def openPath (t : Node) (name : GoStr) (flag mode now : Nat) :
    Except Err (File × Node × List GoStr) :=
  match t with
  | .file _ _ => .error .invalid
  | .dir re rcs =>
    match splitPath name with
    | .error e => .error e
    | .ok segs =>
      match findSegP re rcs segs with
      | .error .notExist =>
        if flag &&& O_CREATE ≠ 0 then createPath re rcs segs flag mode now
        else .error .notExist
      | .error e => .error e
      | .ok (.file d fe, pe) =>
        if fe.isDir = false then
          let f := newFile { data := d, entry := fe, dirEntry := pe } flag
          if flag &&& O_TRUNC ≠ 0 then
            match updateAtSeg rcs segs (.file d f.fd.entry) with
            | .ok rcs1 => .ok (f, .dir re rcs1, segs)
            | .error e => .error e
          else .ok (f, t, segs)
        else .ok (newFile { data := d, entry := fe, dirEntry := pe } O_RDONLY, t, segs)
      | .ok (.dir e2 cs2, _) =>
        match lookupChild cs2 ['.'] with
        | .ok (.file dd dotE) =>
          .ok (newFile { data := dd, entry := dotE, dirEntry := e2 } O_RDONLY, t,
            segs ++ [['.']])
        | .ok (.dir _ _) => .error .invalidCast
        | .error e => .error e

/-- Loop of `io.ReadAll` (as used by `MemFS.ReadFile`): read 512-byte chunks,
append, stop successfully at `io.EOF`, propagate other errors.  The fuel
bounds the iteration; `Err.diverge` stands for the non-termination `ReadAll`
would exhibit if `Read` kept returning empty chunks, which cannot happen for
the handles `ReadFile` opens (each successful read advances the cursor). -/
def readAllFuel : Nat → File → List Nat → Except Err (List Nat)
  | 0, _, _ => .error .diverge
  | fuel + 1, f, acc =>
    match f.read 512 with
    | ((chunk, none), f1) => readAllFuel fuel f1 (acc ++ chunk)
    | ((chunk, some .eof), _) => .ok (acc ++ chunk)
    | ((_, some e), _) => .error e

/-- Method `MemFS.ReadFile`: `Open` (read-only, so no creation and no
truncation; the deferred `Close` always succeeds on the fresh handle and its
result is only logged), then `io.ReadAll`. -/
def readFilePath (t : Node) (name : GoStr) : Except Err (List Nat) :=
  match openPath t name O_RDONLY 0 0 with
  | .error e => .error e
  | .ok (f, _, _) => readAllFuel (f.fd.entry.attrs.size + 1) f []

/-- Method `MemFS.WriteFile`: open with `O_RDWR|O_CREATE|O_TRUNC`, write the
whole buffer, propagate the write's error; the written cell (shared with the
tree in Go) is re-attached at its location.  The deferred `Close` on the
fresh handle always succeeds and is only logged. -/
def writeFilePath (t : Node) (name : GoStr) (data : List Nat) (mode now : Nat) :
    Except Err Node :=
  match openPath t name (O_RDWR ||| O_CREATE ||| O_TRUNC) mode now with
  | .error e => .error e
  | .ok (f, t1, loc) =>
    match f.write data now with
    | ((_, some e), _) => .error e
    | ((_, none), f1) =>
      match t1 with
      | .dir e1 cs1 =>
        match updateAtSeg cs1 loc (.file f1.fd.data f1.fd.entry) with
        | .ok cs2 => .ok (.dir e1 cs2)
        | .error e => .error e
      | .file _ _ => .error .invalid

/-! ### Well-formedness of reachable trees

Invariants every tree reachable through the `memfs` API satisfies: nodes
stored as nested `*MemFS` carry directory-mode entries named after their key
(directories are built only by `newDir`), `"."` keys hold the directory's own
cell (directory-mode entry named `"."`), and any other key holds a regular
file cell named after the key without the directory bit (`create` diverts
directory-mode requests to `mkdirAll`). -/

mutual

def wfChildren : List (GoStr × Node) → Bool
  | [] => true
  | (k, c) :: rest => wfChild k c && wfChildren rest

def wfChild : GoStr → Node → Bool
  | k, .file _ fe =>
    if k = ['.'] then fe.path == ['.'] && fe.isDir
    else fe.path == k && !fe.isDir
  | k, .dir e2 cs2 => !(k == ['.']) && (e2.path == k) && e2.isDir && wfChildren cs2

end

/-- Well-formed filesystem root: a directory node with a directory-mode entry
and well-formed children. -/
def wfN : Node → Bool
  | .file _ _ => false
  | .dir e cs => e.isDir && wfChildren cs


theorem goCopy_length (dst src : List Nat) : (goCopy dst src).length = dst.length := by
  simp [goCopy]

theorem goCopyAt_length (dst : List Nat) (off : Nat) (src : List Nat)
    (h : off ≤ dst.length) : (goCopyAt dst off src).length = dst.length := by
  simp [goCopyAt, goCopy_length]
  omega

theorem goCopy_prefix (dst src : List Nat) (h : src.length ≤ dst.length) :
    (goCopy dst src).take src.length = src := by
  have hm : min dst.length src.length = src.length := by omega
  simp [goCopy, hm, List.take_append_eq_append_take]

theorem bitSize_zero (fuel : Nat) : bitSize fuel 0 = 0 := by
  cases fuel <;> simp [bitSize]

theorem lt_two_pow_bitSize : ∀ fuel n, n < 2 ^ fuel → n < 2 ^ bitSize fuel n := by
  intro fuel
  induction fuel with
  | zero =>
    intro n h
    have hn : n = 0 := by omega
    subst hn
    simp [bitSize_zero]
  | succ fuel ih =>
    intro n h
    by_cases hn : n = 0
    · subst hn
      simp [bitSize_zero]
    · have hp : 2 ^ (fuel + 1) = 2 * 2 ^ fuel := by ring
      have h2 : n / 2 < 2 ^ fuel := by omega
      have hih : n / 2 < 2 ^ bitSize fuel (n / 2) := ih (n / 2) h2
      simp only [bitSize, hn, if_false]
      calc n < 2 * (n / 2) + 2 := by omega
        _ ≤ 2 * 2 ^ bitSize fuel (n / 2) := by omega
        _ = 2 ^ (bitSize fuel (n / 2) + 1) := by ring

theorem two_pow_bitSize_le : ∀ fuel n, 0 < n → 2 ^ (bitSize fuel n - 1) ≤ n := by
  intro fuel
  induction fuel with
  | zero =>
    intro n h
    simp only [bitSize]
    simpa using h
  | succ fuel ih =>
    intro n h
    have hn : n ≠ 0 := by omega
    simp only [bitSize, hn, if_false, Nat.add_sub_cancel]
    by_cases h2 : n / 2 = 0
    · rw [h2, bitSize_zero]
      simpa using h
    · have hih : 2 ^ (bitSize fuel (n / 2) - 1) ≤ n / 2 := ih (n / 2) (by omega)
      by_cases hz : bitSize fuel (n / 2) = 0
      · rw [hz]
        simpa using h
      · calc 2 ^ bitSize fuel (n / 2)
            = 2 * 2 ^ (bitSize fuel (n / 2) - 1) := by
              rw [← pow_succ']
              congr 1
              omega
          _ ≤ 2 * (n / 2) := by omega
          _ ≤ n := by omega

theorem roundMantissa_ge (x s : Nat) : x ≤ roundMantissa x s * 2 ^ s + 2 ^ s / 2 := by
  unfold roundMantissa
  by_cases hs : s = 0
  · simp [hs]
  · simp only [hs, if_false]
    have hpos : 0 < 2 ^ s := Nat.pos_pow_of_pos s (by omega)
    have hdm : x / 2 ^ s * 2 ^ s + x % 2 ^ s = x := by
      rw [Nat.mul_comm]
      exact Nat.div_add_mod x (2 ^ s)
    have hhalf : 2 ^ s / 2 = 2 ^ (s - 1) := by
      conv_lhs => rw [show s = s - 1 + 1 by omega]
      rw [pow_succ]
      omega
    by_cases hc : 2 ^ (s - 1) < x % 2 ^ s ∨ (x % 2 ^ s = 2 ^ (s - 1) ∧ x / 2 ^ s % 2 = 1)
    · simp only [hc, if_true]
      have hr : x % 2 ^ s < 2 ^ s := Nat.mod_lt x hpos
      calc x = x / 2 ^ s * 2 ^ s + x % 2 ^ s := hdm.symm
        _ ≤ x / 2 ^ s * 2 ^ s + 2 ^ s := by omega
        _ = (x / 2 ^ s + 1) * 2 ^ s := by ring
        _ ≤ (x / 2 ^ s + 1) * 2 ^ s + 2 ^ s / 2 := by omega
    · simp only [hc, if_false]
      have hr : x % 2 ^ s ≤ 2 ^ (s - 1) := by
        rcases Nat.lt_or_ge (2 ^ (s - 1)) (x % 2 ^ s) with h | h
        · exact absurd (Or.inl h) hc
        · exact h
      omega

theorem roundMantissa_le (x s : Nat) : roundMantissa x s ≤ x / 2 ^ s + 1 := by
  unfold roundMantissa
  by_cases hs : s = 0
  · simp [hs]
  · simp only [hs, if_false]
    split <;> omega

theorem roundShift_le (y : Nat) (hy : y < 2 ^ 64) :
    roundMantissa y (shift24 y) ≤ 2 ^ 24 := by
  have hlt : y < 2 ^ bitSize 64 y := lt_two_pow_bitSize 64 y hy
  by_cases hb : bitSize 64 y ≤ 24
  · have hsh : shift24 y = 0 := by simp [shift24, hb]
    have hle : (2 : Nat) ^ bitSize 64 y ≤ 2 ^ 24 := Nat.pow_le_pow_right (by omega) hb
    have hrm : roundMantissa y 0 = y := by simp [roundMantissa]
    rw [hsh, hrm]
    omega
  · have hsh : shift24 y = bitSize 64 y - 24 := by simp [shift24, hb]
    rw [hsh]
    have hdiv : y / 2 ^ (bitSize 64 y - 24) < 2 ^ 24 := by
      rw [Nat.div_lt_iff_lt_mul (Nat.pos_pow_of_pos _ (by omega))]
      calc y < 2 ^ bitSize 64 y := hlt
        _ = 2 ^ 24 * 2 ^ (bitSize 64 y - 24) := by
            rw [← pow_add]
            congr 1
            omega
    have := roundMantissa_le y (bitSize 64 y - 24)
    omega

theorem roundTo24_ge (y : Nat) :
    y * (2 ^ 24 - 1) ≤ roundMantissa y (shift24 y) * 2 ^ shift24 y * 2 ^ 24 := by
  by_cases hb : bitSize 64 y ≤ 24
  · have hsh : shift24 y = 0 := by simp [shift24, hb]
    rw [hsh]
    simp only [roundMantissa, if_pos rfl, pow_zero, Nat.mul_one]
    exact Nat.mul_le_mul_left y (by norm_num)
  · have hsh : shift24 y = bitSize 64 y - 24 := by simp [shift24, hb]
    rw [hsh]
    have hy0 : 0 < y := by
      rcases Nat.eq_zero_or_pos y with h0 | h
      · rw [h0, bitSize_zero] at hb; omega
      · exact h
    set t := bitSize 64 y - 24 with ht
    have ht1 : 1 ≤ t := by omega
    have hge := roundMantissa_ge y t
    have hhalf : 2 ^ t / 2 = 2 ^ (t - 1) := by
      conv_lhs => rw [show t = t - 1 + 1 by omega]
      rw [pow_succ]
      omega
    rw [hhalf] at hge
    have hlow : 2 ^ (t - 1) * 2 ^ 24 ≤ y := by
      calc 2 ^ (t - 1) * 2 ^ 24 = 2 ^ (t - 1 + 24) := by rw [← pow_add]
        _ = 2 ^ (bitSize 64 y - 1) := by congr 1; omega
        _ ≤ y := two_pow_bitSize_le 64 y hy0
    -- abstract the nonlinear terms, then the bound is linear arithmetic
    obtain ⟨a, hA⟩ : ∃ a, roundMantissa y t * 2 ^ t = a := ⟨_, rfl⟩
    obtain ⟨b, hB⟩ : ∃ b, 2 ^ (t - 1) = b := ⟨_, rfl⟩
    rw [hA, hB] at hge
    rw [hB] at hlow
    rw [hA]
    have hyk : y * 2 ^ 24 ≤ a * 2 ^ 24 + y := by
      calc y * 2 ^ 24 ≤ (a + b) * 2 ^ 24 := Nat.mul_le_mul_right _ hge
        _ = a * 2 ^ 24 + b * 2 ^ 24 := by ring
        _ ≤ a * 2 ^ 24 + y := by omega
    have hK : (2 : Nat) ^ 24 = 16777216 := by norm_num
    rw [hK] at hyk ⊢
    omega

theorem growCap_ge (x : Nat) : x ≤ growCap x := by
  rcases Nat.eq_zero_or_pos x with h0 | hpos
  · subst h0
    have : growCap 0 = 0 := by decide
    omega
  · unfold growCap f32round
    simp only
    set m := roundMantissa x (shift24 x) with hm
    set e := shift24 x with he
    set num := gfNum * m with hnum
    set s := shift24 num with hs
    set m2 := roundMantissa num s with hm2
    set c := m2 * 2 ^ (s + e) / 2 ^ 23 with hc
    by_contra hlt
    have hcx : c + 1 ≤ x := by omega
    have h1 : x * (2 ^ 24 - 1) ≤ m * 2 ^ e * 2 ^ 24 := roundTo24_ge x
    have h2 : num * (2 ^ 24 - 1) ≤ m2 * 2 ^ s * 2 ^ 24 := roundTo24_ge num
    have h3 : m2 * 2 ^ (s + e) < (c + 1) * 2 ^ 23 := by
      have hmod := Nat.div_add_mod (m2 * 2 ^ (s + e)) (2 ^ 23)
      have hr : m2 * 2 ^ (s + e) % 2 ^ 23 < 2 ^ 23 :=
        Nat.mod_lt _ (Nat.pos_pow_of_pos _ (by omega))
      omega
    -- chain the three inequalities
    have step1 : x * (2 ^ 24 - 1) * (gfNum * (2 ^ 24 - 1))
        ≤ m * 2 ^ e * 2 ^ 24 * (gfNum * (2 ^ 24 - 1)) :=
      Nat.mul_le_mul_right _ h1
    have step2 : num * (2 ^ 24 - 1) * (2 ^ e * 2 ^ 24)
        ≤ m2 * 2 ^ s * 2 ^ 24 * (2 ^ e * 2 ^ 24) :=
      Nat.mul_le_mul_right _ h2
    have eqA : m * 2 ^ e * 2 ^ 24 * (gfNum * (2 ^ 24 - 1))
        = num * (2 ^ 24 - 1) * (2 ^ e * 2 ^ 24) := by
      rw [hnum]
      ring
    have eqB : m2 * 2 ^ s * 2 ^ 24 * (2 ^ e * 2 ^ 24)
        = m2 * 2 ^ (s + e) * (2 ^ 24 * 2 ^ 24) := by
      rw [pow_add]
      ring
    have step3 : m2 * 2 ^ (s + e) * (2 ^ 24 * 2 ^ 24)
        < (c + 1) * 2 ^ 23 * (2 ^ 24 * 2 ^ 24) := by
      have hk : (0 : Nat) < 2 ^ 24 * 2 ^ 24 := by positivity
      exact (Nat.mul_lt_mul_right hk).mpr h3
    have chain : x * (2 ^ 24 - 1) * (gfNum * (2 ^ 24 - 1))
        < (c + 1) * 2 ^ 23 * (2 ^ 24 * 2 ^ 24) := by
      calc x * (2 ^ 24 - 1) * (gfNum * (2 ^ 24 - 1))
          ≤ m * 2 ^ e * 2 ^ 24 * (gfNum * (2 ^ 24 - 1)) := step1
        _ = num * (2 ^ 24 - 1) * (2 ^ e * 2 ^ 24) := eqA
        _ ≤ m2 * 2 ^ s * 2 ^ 24 * (2 ^ e * 2 ^ 24) := step2
        _ = m2 * 2 ^ (s + e) * (2 ^ 24 * 2 ^ 24) := eqB
        _ < (c + 1) * 2 ^ 23 * (2 ^ 24 * 2 ^ 24) := step3
    have hfin : x * (2 ^ 24 - 1) * (gfNum * (2 ^ 24 - 1)) < x * 2 ^ 71 := by
      calc x * (2 ^ 24 - 1) * (gfNum * (2 ^ 24 - 1))
          < (c + 1) * 2 ^ 23 * (2 ^ 24 * 2 ^ 24) := chain
        _ ≤ x * 2 ^ 23 * (2 ^ 24 * 2 ^ 24) := by
            exact Nat.mul_le_mul_right _ (Nat.mul_le_mul_right _ hcx)
        _ = x * 2 ^ 71 := by ring
    have hrev : x * 2 ^ 71 < x * (2 ^ 24 - 1) * (gfNum * (2 ^ 24 - 1)) := by
      have hgf : (2 : Nat) ^ 71 < (2 ^ 24 - 1) * (gfNum * (2 ^ 24 - 1)) := by
        norm_num [gfNum]
      calc x * 2 ^ 71 < x * ((2 ^ 24 - 1) * (gfNum * (2 ^ 24 - 1))) :=
            (Nat.mul_lt_mul_left hpos).mpr hgf
        _ = x * (2 ^ 24 - 1) * (gfNum * (2 ^ 24 - 1)) := by ring
    exact absurd (hfin.trans hrev) (lt_irrefl _)

/-! ### Helper lemmas about the handle operations -/

theorem grow_ok (data : List Nat) (k : Nat) (data1 : List Nat)
    (h : grow data k = .ok data1) :
    data1 = goCopy (List.replicate (growCap (data.length + k)) 0) data ∧
    data1.length = growCap (data.length + k) := by
  unfold grow at h
  rw [if_pos (Nat.le_add_right _ _)] at h
  by_cases hbig : maxContentLen < growCap (data.length + k) + growCap (data.length + k) + k
  · rw [if_pos hbig] at h
    cases h
  · rw [if_neg hbig] at h
    cases h
    exact ⟨rfl, by rw [goCopy_length, List.length_replicate]⟩

theorem setModTime_ok_shape (e : Entry) (t : Nat) (e1 : Entry)
    (h : e.setModTime t = .ok e1) :
    e1.path = e.path ∧ e1.attrs.mode = e.attrs.mode ∧
    e1.attrs.size = e.attrs.size ∧ e1.attrs.ctime = e.attrs.ctime := by
  unfold Entry.setModTime at h
  by_cases h0 : t = 0 ∨ t = e.attrs.mtime
  · rw [if_pos h0] at h
    cases h
    exact ⟨rfl, rfl, rfl, rfl⟩
  · rw [if_neg h0] at h
    by_cases hlt : t < e.attrs.mtime
    · rw [if_pos hlt] at h
      cases h
    · rw [if_neg hlt] at h
      cases h
      exact ⟨rfl, rfl, rfl, rfl⟩

theorem stat_ok (f : File) (fi : Entry) (h : f.stat = .ok fi) :
    f.closed = false ∧
    fi = (if f.fd.entry.path = ['.'] then f.fd.dirEntry else f.fd.entry) := by
  unfold File.stat at h
  by_cases hc : f.closed
  · rw [if_pos hc] at h
    cases h
  · rw [if_neg hc] at h
    refine ⟨by simpa using hc, ?_⟩
    by_cases hdot : f.fd.entry.path = ['.']
    · rw [if_pos hdot] at h ⊢
      cases h
      rfl
    · rw [if_neg hdot] at h ⊢
      cases h
      rfl

theorem checkRegularFile_ok (f : File) (fi : Entry) (h : f.checkRegularFile = .ok fi) :
    f.stat = .ok fi ∧ fi.isDir = false := by
  unfold File.checkRegularFile at h
  cases hs : f.stat with
  | error e =>
    rw [hs] at h
    cases h
  | ok fi0 =>
    rw [hs] at h
    by_cases hd : fi0.isDir
    · simp only [hd, if_true] at h
      cases h
    · simp only [hd, if_false] at h
      cases h
      exact ⟨rfl, by simpa using hd⟩

theorem checkWrite_ok (f : File) (fi : Entry) (h : f.checkWrite = .ok fi) :
    f.closed = false ∧
    (f.fd.entry.path = ['.'] → fi = f.fd.dirEntry) ∧
    (f.fd.entry.path ≠ ['.'] → fi = f.fd.entry) ∧
    fi.isDir = false ∧ f.flag ≠ O_RDONLY := by
  unfold File.checkWrite at h
  cases hcr : f.checkRegularFile with
  | error e =>
    rw [hcr] at h
    cases h
  | ok fi0 =>
    rw [hcr] at h
    by_cases hfl : f.flag = O_RDONLY
    · rw [hfl] at h
      simp at h
    · simp only [hfl, if_false] at h
      cases h
      obtain ⟨hs, hd⟩ := checkRegularFile_ok f fi hcr
      obtain ⟨hc, hfi⟩ := stat_ok f fi hs
      refine ⟨hc, ?_, ?_, hd, hfl⟩
      · intro hdot
        rw [hfi, if_pos hdot]
      · intro hdot
        rw [hfi, if_neg hdot]

theorem checkRead_ok (f : File) (fi : Entry) (h : f.checkRead = .ok fi) :
    f.closed = false ∧
    (f.fd.entry.path = ['.'] → fi = f.fd.dirEntry) ∧
    (f.fd.entry.path ≠ ['.'] → fi = f.fd.entry) ∧
    fi.isDir = false ∧ f.flag ≠ O_WRONLY := by
  unfold File.checkRead at h
  cases hcr : f.checkRegularFile with
  | error e =>
    rw [hcr] at h
    cases h
  | ok fi0 =>
    rw [hcr] at h
    by_cases hfl : f.flag = O_WRONLY
    · rw [hfl] at h
      simp at h
    · simp only [hfl, if_false] at h
      cases h
      obtain ⟨hs, hd⟩ := checkRegularFile_ok f fi hcr
      obtain ⟨hc, hfi⟩ := stat_ok f fi hs
      refine ⟨hc, ?_, ?_, hd, hfl⟩
      · intro hdot
        rw [hfi, if_pos hdot]
      · intro hdot
        rw [hfi, if_neg hdot]

/-- C2, counterexample.  Writing 16 bytes into an empty cell (capacity 0)
triggers growth, and the code allocates `int(1.618f * float32(16)) = 25`
bytes, not the spec's `round(1.618 × 16) = 26`: binary32 truncation, not
rounding.  Moreover the too-large check is `2c + n > MaxContentLen`, not
"the new capacity overflows": at `n = 2^62` the new capacity (≈ 7.46·10^18)
is below `MaxContentLen` yet the write still fails. -/
theorem C2_grow_counterexample :
    grow [] 16 = .ok (List.replicate 25 0) ∧
    specGrowCap 0 16 = 26 ∧
    grow [] (2 ^ 62) = .error .tooLarge ∧
    growCap (0 + 2 ^ 62) ≤ maxContentLen :=
  ⟨rfl, by decide, rfl, by decide⟩

/-- C2, amended.  On a write of `n` bytes over a buffer of `cap = len` bytes
(the two always coincide), growth always fires; the new capacity is
`growCap (cap + n) = int(float32(1.618) * float32(cap+n))` (truncated binary32
product), which is at least `cap + n`; the write fails with `ErrTooLarge`
exactly when `2c + n` exceeds `MaxContentLen`; and otherwise every byte of the
old buffer is preserved at its original offset in the new one. -/
theorem C2_grow_amended (data : List Nat) (n : Nat) :
    (maxContentLen < growCap (data.length + n) + growCap (data.length + n) + n →
      grow data n = .error .tooLarge) ∧
    (growCap (data.length + n) + growCap (data.length + n) + n ≤ maxContentLen →
      grow data n = .ok (goCopy (List.replicate (growCap (data.length + n)) 0) data) ∧
      (goCopy (List.replicate (growCap (data.length + n)) 0) data).length
          = growCap (data.length + n) ∧
      data.length + n ≤ growCap (data.length + n) ∧
      (goCopy (List.replicate (growCap (data.length + n)) 0) data).take data.length
          = data) := by
  have hge : data.length + n ≤ growCap (data.length + n) := growCap_ge _
  constructor
  · intro hbig
    unfold grow
    simp only [Nat.le_add_right, if_true, hbig, if_pos]
  · intro hsmall
    have hnot : ¬ maxContentLen < growCap (data.length + n) + growCap (data.length + n) + n := by
      omega
    refine ⟨?_, ?_, hge, ?_⟩
    · unfold grow
      simp only [Nat.le_add_right, if_true, hnot, if_neg, not_false_iff]
    · rw [goCopy_length, List.length_replicate]
    · exact goCopy_prefix _ _ (by simpa using by omega)

/-- C2, witness for the amended theorem at buffer `[3,4]`, write size 1:
capacity grows to `growCap 3 = 4` and the old two bytes survive. -/
theorem C2_grow_amended_witness :
    grow [3, 4] 1 = .ok (goCopy (List.replicate (growCap 3) 0) [3, 4]) ∧
    (goCopy (List.replicate (growCap 3) 0) [3, 4]).take 2 = [3, 4] :=
  ⟨((C2_grow_amended [3, 4] 1).2 (by decide)).1,
   ((C2_grow_amended [3, 4] 1).2 (by decide)).2.2.2⟩

/-! ### Claim C3 — the byte accessor -/

/-- C3, counterexample.  On a descriptor whose logical size is 0 but whose
buffer still holds a stale byte (exactly the state after an `O_TRUNC` open of
a nonempty file), `fd.bytes()` returns the WHOLE buffer `[7]`, not the prefix
`buffer[0:0] = []` the claim demands. -/
theorem C3_bytes_counterexample :
    staleFd.bytes = [7] ∧
    staleFd.data.take staleFd.entry.attrs.size = [] ∧
    staleFd.bytes ≠ staleFd.data.take staleFd.entry.attrs.size := by
  decide

/-- C3, amended.  `fd.bytes()` returns `buffer[0:size]` only when the logical
size is positive; when the size is 0 it returns the full buffer, stale tail
included. -/
theorem C3_bytes_amended (d : Fd) :
    (0 < d.entry.attrs.size → d.bytes = d.data.take d.entry.attrs.size) ∧
    (d.entry.attrs.size = 0 → d.bytes = d.data) := by
  constructor
  · intro h
    simp [Fd.bytes, h]
  · intro h
    simp [Fd.bytes, h]

/-- C3, witness: both branches of the amended accessor description at
concrete descriptors. -/
theorem C3_bytes_amended_witness :
    roHandle1.fd.bytes = roHandle1.fd.data.take roHandle1.fd.entry.attrs.size ∧
    staleFd.bytes = staleFd.data :=
  ⟨(C3_bytes_amended roHandle1.fd).1 (by decide), (C3_bytes_amended staleFd).2 (by decide)⟩

/-- C4, counterexample.  `SetModTime` never compares against the creation
time: on an entry created at time 100 (modification time still zero), setting
the modification time to 50 SUCCEEDS and leaves `mtime = 50 < ctime = 100` —
the claim says any such attempt is rejected with an error. -/
theorem C4_setModTime_counterexample :
    lateEntry.setModTime 50 = .ok lateEntrySet ∧
    lateEntrySet.attrs.mtime < lateEntrySet.attrs.ctime :=
  ⟨rfl, by decide⟩

/-- C4, amended.  The modification time never regresses below the PRIOR
modification time: a successful `SetModTime` never lowers it (and never
touches the creation time), and a nonzero time strictly below the current
modification time is rejected with `ErrMtimeMismatch`.  The creation-time
ordering is enforced only at construction: `NewAttributes` rejects a nonzero
initial modification time earlier than the (defaulted) creation time with
`ErrCtimeMismatch`; after construction, `SetModTime` accepts times before the
creation time. -/
theorem C4_setModTime_amended :
    (∀ (e : Entry) (t : Nat) (e1 : Entry), e.setModTime t = .ok e1 →
      e.attrs.mtime ≤ e1.attrs.mtime ∧ e1.attrs.ctime = e.attrs.ctime) ∧
    (∀ (e : Entry) (t : Nat), 0 < t → t < e.attrs.mtime →
      e.setModTime t = .error .mtimeMismatch) ∧
    (∀ (now : Nat) (a : Attribute), a.mtime ≠ 0 →
      a.mtime < (if a.ctime = 0 then now else a.ctime) →
      newAttributes now a = .error .ctimeMismatch) := by
  refine ⟨?_, ?_, ?_⟩
  · intro e t e1 h
    unfold Entry.setModTime at h
    by_cases h0 : t = 0 ∨ t = e.attrs.mtime
    · rw [if_pos h0] at h
      cases h
      exact ⟨le_refl _, rfl⟩
    · rw [if_neg h0] at h
      by_cases hlt : t < e.attrs.mtime
      · rw [if_pos hlt] at h
        cases h
      · rw [if_neg hlt] at h
        cases h
        refine ⟨?_, rfl⟩
        show e.attrs.mtime ≤ t
        omega
  · intro e t ht hlt
    unfold Entry.setModTime
    rw [if_neg (by omega), if_pos hlt]
  · intro now a hm hlt
    unfold newAttributes
    by_cases hc : a.ctime = 0
    · simp only [hc, if_pos]
      rw [if_pos]
      constructor
      · exact hm
      · simpa [hc] using hlt
    · simp only [hc, if_neg, if_false]
      rw [if_pos]
      constructor
      · exact hm
      · simpa [hc] using hlt

/-- C4, witness: the monotone branch, the rejection branch, and the
construction-time rejection, at concrete inputs. -/
theorem C4_setModTime_amended_witness :
    (fileEntryA 0).attrs.mtime ≤ lateEntrySet.attrs.mtime ∧
    lateEntrySet.setModTime 7 = .error .mtimeMismatch ∧
    newAttributes 9 { ctime := 0, mtime := 3, mode := 0, size := 0 } =
      .error .ctimeMismatch :=
  ⟨by decide,
   C4_setModTime_amended.2.1 lateEntrySet 7 (by decide) (by decide),
   C4_setModTime_amended.2.2 9 { ctime := 0, mtime := 3, mode := 0, size := 0 }
     (by decide) (by decide)⟩

/-! ### Claim C5 — close is not idempotent -/

/-- C5.  The first `close()` of a live handle succeeds and moves it to the
terminal closed state; closing the resulting handle (and any closed handle)
fails with the closed-handle error, so every later `close()` keeps failing. -/
theorem C5_close_spec (f : File) (h : f.closed = false) :
    f.close = .ok { f with closed := true } ∧
    File.close { f with closed := true } = .error .closed ∧
    (∀ g : File, g.closed = true → g.close = .error .closed) := by
  refine ⟨by simp [File.close, h], by simp [File.close], ?_⟩
  intro g hg
  simp [File.close, hg]

/-- C5, witness at a concrete live handle. -/
theorem C5_close_spec_witness :
    roHandle1.close = .ok { roHandle1 with closed := true } ∧
    File.close { roHandle1 with closed := true } = .error .closed :=
  ⟨(C5_close_spec roHandle1 (by decide)).1, (C5_close_spec roHandle1 (by decide)).2.1⟩

/-! ### Claim C6 — readAt at and past the logical end -/

/-- C6.  On a read-only handle over a file of logical size 1, `readAt` with a
1-byte buffer at offset 1 (the logical end) returns the claimed short
result `(0, io.EOF)` — but at offset 2, one past the end, the source slices
`f.fd.bytes()[2:]` on a 1-byte slice and PANICS with a runtime
slice-bounds-out-of-range error (modelled by `Err.sliceOutOfRange`) instead
of returning a short count with end-of-data. -/
theorem C6_readAt_past_end :
    roHandle1.readAt 1 1 = ([], some .eof) ∧
    roHandle1.readAt 1 2 = ([], some .sliceOutOfRange) ∧
    roHandle1.readAt 1 (-1) = ([], some .sliceOutOfRange) := by
  refine ⟨rfl, rfl, rfl⟩

/-! ### Claim C7 — size after write -/

/-- C7, counterexample.  Through a handle freshly opened WITHOUT truncation
on a file already holding two bytes (recorded size 2), writing one byte
succeeds and `SetSize(wOff)` records size 1 — the write cursor — even though
the highest offset written to the cell since the last truncation is 2.  The
claim's equality fails. -/
theorem C7_write_size_counterexample :
    (rwHandle2.write [9] 5).1 = (1, none) ∧
    ((rwHandle2.write [9] 5).2).fd.entry.attrs.size = 1 ∧
    rwHandle2.fd.entry.attrs.size = 2 := by
  refine ⟨rfl, rfl, rfl⟩

/-- C7, amended.  After every successful write, the recorded size equals the
writing handle's write cursor after the write (`wOff + len(p)`), NOT the
historical highest written offset: a fresh un-truncating handle shrinks the
recorded size of a longer file. -/
theorem C7_write_size_amended (f : File) (p : List Nat) (now : Nat)
    (hw : f.wOff ≤ f.fd.data.length) (hdot : f.fd.entry.path ≠ ['.']) :
    ∀ (n : Nat) (f1 : File), f.write p now = ((n, none), f1) →
      n = p.length ∧ f1.wOff = f.wOff + p.length ∧
      f1.fd.entry.attrs.size = f.wOff + p.length := by
  intro n f1 hr
  unfold File.write at hr
  cases hcw : f.checkWrite with
  | error e => rw [hcw] at hr; simp at hr
  | ok fi =>
    rw [hcw] at hr
    cases hg : grow f.fd.data p.length with
    | error e => rw [hg] at hr; simp at hr
    | ok data1 =>
      rw [hg] at hr
      cases hm : f.fd.entry.setModTime now with
      | error e => rw [hm] at hr; simp at hr
      | ok e1 =>
        rw [hm] at hr
        have hd1 : data1.length = growCap (f.fd.data.length + p.length) :=
          (grow_ok f.fd.data p.length data1 hg).2
        have hcap : f.fd.data.length + p.length ≤ data1.length := by
          rw [hd1]
          exact growCap_ge _
        have hcount : goCopyAtLen data1 f.wOff p = p.length := by
          unfold goCopyAtLen
          omega
        obtain ⟨-, -, hfi, hdir, -⟩ := checkWrite_ok f fi hcw
        have hfie : fi = f.fd.entry := hfi hdot
        have hmode : e1.attrs.mode = f.fd.entry.attrs.mode :=
          (setModTime_ok_shape _ _ _ hm).2.1
        have he1dir : e1.isDir = false := by
          rw [hfie] at hdir
          simpa [Entry.isDir, hmode] using hdir
        simp only at hr
        rw [Prod.mk.injEq, Prod.mk.injEq] at hr
        obtain ⟨⟨hn, -⟩, hf1⟩ := hr
        refine ⟨by rw [← hn, hcount], ?_, ?_⟩
        · rw [← hf1]
          simp only
          rw [hcount]
        · rw [← hf1]
          simp only
          rw [hcount]
          unfold Entry.setSize
          rw [he1dir]
          simp

/-- C7, witness for the amended statement: on the fresh read-write handle over
the two-byte file, the one-byte write records size `0 + 1 = 1`. -/
theorem C7_write_size_amended_witness :
    (1 : Nat) = List.length [9] ∧
    ((rwHandle2.write [9] 5).2).wOff = rwHandle2.wOff + List.length [9] ∧
    ((rwHandle2.write [9] 5).2).fd.entry.attrs.size = rwHandle2.wOff + List.length [9] :=
  C7_write_size_amended rwHandle2 [9] 5 (by decide) (by decide)
    1 ((rwHandle2.write [9] 5).2) rfl

/-! ### Claim C10 — empty-buffer read -/

/-- C10, counterexample.  A write-only handle (`flag = O_WRONLY`) on an open
regular file fails `checkRead`, so `Read` with an empty buffer returns the
write-only-violation error, not `(0, nil)` as the claim demands for EVERY
open handle on a regular file. -/
theorem C10_read_empty_counterexample :
    (woHandle.read 0).1 = ([], some .writeOnly) ∧
    (woHandle.read 0).1 ≠ ([], none) := by
  refine ⟨rfl, by decide⟩

/-- C10, amended.  On every open, not-closed handle over a regular file whose
flag set is not exactly `O_WRONLY`, `Read` with an empty buffer returns count
0 with no error and leaves the handle unchanged — even when the read cursor
sits at or past the logical end, where a non-empty buffer would yield
end-of-data. -/
theorem C10_read_empty_amended (f : File) (hc : f.closed = false)
    (hd : (if f.fd.entry.path = ['.'] then f.fd.dirEntry else f.fd.entry).isDir = false)
    (hw : f.flag ≠ O_WRONLY) :
    f.read 0 = (([], none), f) := by
  unfold File.read File.checkRead File.checkRegularFile File.stat
  by_cases hdot : f.fd.entry.path = ['.']
  · rw [if_pos hdot] at hd
    simp [hc, hdot, hd, hw]
  · rw [if_neg hdot] at hd
    simp [hc, hdot, hd, hw]

/-- C10, witness: empty-buffer read succeeds with no bytes on a read-write
handle whose cursor is already past the end. -/
theorem C10_read_empty_amended_witness :
    File.read { rwHandle2 with rOff := 9 } 0 = (([], none), { rwHandle2 with rOff := 9 }) :=
  C10_read_empty_amended { rwHandle2 with rOff := 9 } (by decide) (by decide) (by decide)

theorem splitPath_segs (p : GoStr) (segs : List GoStr)
    (h : splitPath p = .ok segs) :
    segs = [['.']] ∨ ∀ s ∈ segs, s ≠ [] ∧ s ≠ ['.'] ∧ s ≠ ['.', '.'] := by
  unfold splitPath cleanPath at h
  by_cases hv : validPath (trimSpace p)
  · rw [if_pos hv] at h
    simp only at h
    by_cases hq : trimSpace p = ['.']
    · left
      rw [hq] at h
      cases h
      rfl
    · right
      unfold validPath at hv
      rw [if_neg hq] at hv
      by_cases he : trimSpace p = []
      · rw [if_pos he] at hv
        cases hv
      · rw [if_neg he] at hv
        cases h
        intro s hs
        have hmem : s ∈ splitSep (trimSpace p) := (List.mem_filter.mp hs).1
        have := (List.all_eq_true.mp hv) s hmem
        simp only [Bool.and_eq_true, bne_iff_ne, ne_eq] at this
        exact ⟨this.1.1, this.1.2, this.2⟩
  · rw [if_neg hv] at h
    cases h

/-- Computation of `checkRead` on a live, readable, regular-file handle whose
entry is not the `"."` alias. -/
theorem checkRead_computes (f : File) (hc : f.closed = false)
    (hdot : f.fd.entry.path ≠ ['.']) (hdir : f.fd.entry.isDir = false)
    (hfl : f.flag ≠ O_WRONLY) : f.checkRead = .ok f.fd.entry := by
  unfold File.checkRead File.checkRegularFile File.stat
  rw [hc]
  simp only [Bool.false_eq_true, if_false, if_neg hdot]
  rw [hdir]
  simp only [Bool.false_eq_true, if_false, if_neg hfl]

theorem readAllFuel_spec : ∀ (fuel : Nat) (f : File) (acc : List Nat),
    f.closed = false → f.fd.entry.path ≠ ['.'] → f.fd.entry.isDir = false →
    f.flag ≠ O_WRONLY →
    f.fd.entry.attrs.size ≤ f.fd.data.length →
    f.fd.entry.attrs.size - f.rOff < fuel →
    readAllFuel fuel f acc =
      .ok (acc ++ (f.fd.data.take f.fd.entry.attrs.size).drop f.rOff) := by
  intro fuel
  induction fuel with
  | zero =>
    intro f acc _ _ _ _ _ hfuel
    omega
  | succ fuel ih =>
    intro f acc hc hdot hdir hfl hsz hfuel
    unfold readAllFuel File.read
    rw [checkRead_computes f hc hdot hdir hfl]
    simp only
    by_cases hend : f.fd.entry.attrs.size ≤ f.rOff
    · rw [if_pos hend]
      have hnil : (f.fd.data.take f.fd.entry.attrs.size).drop f.rOff = [] := by
        apply List.drop_eq_nil_of_le
        rw [List.length_take]
        omega
      rw [hnil]
      rfl
    · rw [if_neg hend]
      show readAllFuel fuel
        { f with rOff := f.rOff + ((f.fd.bytes.drop f.rOff).take 512).length }
        (acc ++ (f.fd.bytes.drop f.rOff).take 512) = _
      have hpos : 0 < f.fd.entry.attrs.size := by omega
      have hbytes : f.fd.bytes = f.fd.data.take f.fd.entry.attrs.size := by
        unfold Fd.bytes
        rw [if_pos hpos]
      have hblen : f.fd.bytes.length = f.fd.entry.attrs.size := by
        rw [hbytes, List.length_take]
        omega
      have hchlen : ((f.fd.bytes.drop f.rOff).take 512).length =
          min 512 (f.fd.entry.attrs.size - f.rOff) := by
        rw [List.length_take, List.length_drop, hblen]
      have hch1 : 1 ≤ ((f.fd.bytes.drop f.rOff).take 512).length := by
        rw [hchlen]
        omega
      rw [ih { f with rOff := f.rOff + ((f.fd.bytes.drop f.rOff).take 512).length }
        (acc ++ (f.fd.bytes.drop f.rOff).take 512) hc hdot hdir hfl hsz
        (by simp only; omega)]
      simp only
      rw [List.append_assoc]
      congr 1
      congr 1
      rw [hbytes] at hchlen ⊢
      conv_rhs =>
        rw [← List.take_append_drop 512 ((f.fd.data.take f.fd.entry.attrs.size).drop f.rOff)]
      congr 1
      conv_rhs => rw [List.drop_drop]
      by_cases hbig : 512 ≤ f.fd.entry.attrs.size - f.rOff
      · congr 1
        rw [hchlen]
        omega
      · have hlen1 : ((f.fd.data.take f.fd.entry.attrs.size).length : Nat)
            = f.fd.entry.attrs.size := by
          rw [List.length_take]
          omega
        have h1 : (f.fd.data.take f.fd.entry.attrs.size).drop
            (f.rOff + (((f.fd.data.take f.fd.entry.attrs.size).drop f.rOff).take 512).length)
            = [] := by
          apply List.drop_eq_nil_of_le
          rw [hlen1, hchlen]
          omega
        have h2 : (f.fd.data.take f.fd.entry.attrs.size).drop (f.rOff + 512) = [] := by
          apply List.drop_eq_nil_of_le
          rw [hlen1]
          omega
        rw [h1, h2]

theorem Entry.setSize_shape (e : Entry) (s : Nat) :
    (e.setSize s).path = e.path ∧ (e.setSize s).attrs.mode = e.attrs.mode ∧
    (e.setSize s).isDir = e.isDir := by
  unfold Entry.setSize
  by_cases hd : e.isDir
  · rw [if_pos hd]
    exact ⟨rfl, rfl, rfl⟩
  · rw [if_neg hd]
    refine ⟨rfl, rfl, ?_⟩
    unfold Entry.isDir
    rfl

theorem Entry.setSize_size (e : Entry) (s : Nat) (hd : e.isDir = false) :
    (e.setSize s).attrs.size = s := by
  unfold Entry.setSize
  rw [hd]
  simp

theorem getLastD_mem (l : List GoStr) (d : GoStr) (h : l ≠ []) : l.getLastD d ∈ l := by
  induction l generalizing d with
  | nil => exact absurd rfl h
  | cons x xs ih =>
    rw [List.getLastD_cons]
    cases xs with
    | nil => simp [List.getLastD]
    | cons y ys => exact List.mem_cons_of_mem x (ih x (by simp))

theorem dropLast_append_getLastD (l : List GoStr) (d : GoStr) (h : l ≠ []) :
    l.dropLast ++ [l.getLastD d] = l := by
  induction l generalizing d with
  | nil => exact absurd rfl h
  | cons x xs ih =>
    cases xs with
    | nil => rfl
    | cons y ys =>
      rw [List.getLastD_cons]
      rw [show (x :: y :: ys).dropLast = x :: (y :: ys).dropLast from rfl]
      rw [List.cons_append]
      rw [ih x (by simp)]

/-! ### Claim C8 — remove/removeAll/rename are unimplemented -/

/-- C8.  `Remove`, `RemoveAll` and `Rename` fail unconditionally with the
fixed "not implemented" error, for every input whatsoever, and leave the tree
untouched — in particular any path readable before is readable afterwards
with the same content. -/
theorem C8_not_implemented (t : Node) (name path oldp newp q : GoStr) :
    (removePath t name).1 = some .notImplemented ∧ (removePath t name).2 = t ∧
    (removeAllPath t path).1 = some .notImplemented ∧ (removeAllPath t path).2 = t ∧
    (renamePath t oldp newp).1 = some .notImplemented ∧ (renamePath t oldp newp).2 = t ∧
    readFilePath (removePath t name).2 q = readFilePath t q :=
  ⟨rfl, rfl, rfl, rfl, rfl, rfl, rfl⟩

/-! ### Claim C9 — idempotent directory creation -/

theorem lookupChild_error (cs : List (GoStr × Node)) (s : GoStr) (e : Err)
    (h : lookupChild cs s = .error e) : e = .notExist := by
  unfold lookupChild at h
  cases hf : cs.find? (fun c => c.1 == s) with
  | none => rw [hf] at h; cases h; rfl
  | some c => rw [hf] at h; cases h

theorem lookupChild_replace (cs : List (GoStr × Node)) (s : GoStr) (v n : Node)
    (h : lookupChild cs s = .ok v) :
    lookupChild (replaceChild cs s n) s = .ok n := by
  induction cs with
  | nil => cases h
  | cons hd tl ih =>
    unfold lookupChild at h
    unfold lookupChild replaceChild
    by_cases hk : hd.1 == s
    · simp only [List.find?_cons, hk] at h
      simp only [List.map_cons, hk, if_true, List.find?_cons, beq_self_eq_true]
    · simp only [List.find?_cons, hk] at h
      simp only [List.map_cons, hk, if_false, List.find?_cons, Bool.false_eq_true]
      exact ih h

theorem lookupChild_append_missing (cs : List (GoStr × Node)) (s : GoStr) (d : Node)
    (h : lookupChild cs s = .error .notExist) :
    lookupChild (addChild cs s d) s = .ok d := by
  induction cs with
  | nil =>
    unfold lookupChild addChild
    simp [List.find?_cons, beq_self_eq_true]
  | cons hd tl ih =>
    unfold lookupChild at h
    unfold lookupChild addChild
    by_cases hk : hd.1 == s
    · simp only [List.find?_cons, hk] at h
      cases h
    · simp only [List.find?_cons, hk] at h
      simp only [List.cons_append, List.find?_cons, hk, Bool.false_eq_true]
      exact ih h

theorem replaceChild_replaceChild (cs : List (GoStr × Node)) (s : GoStr) (n : Node) :
    replaceChild (replaceChild cs s n) s n = replaceChild cs s n := by
  induction cs with
  | nil => rfl
  | cons hd tl ih =>
    unfold replaceChild at ih ⊢
    simp only [List.map_cons]
    rw [ih]
    by_cases hk : hd.1 == s
    · simp [hk]
    · simp [hk]

theorem mkdirAllSeg_idem : ∀ (segs : List GoStr) (e : Entry)
    (cs : List (GoStr × Node)) (mode now now2 : Nat) (e1 : Entry)
    (cs1 : List (GoStr × Node)),
    mkdirAllSeg e cs segs mode now = .ok (e1, cs1) →
    mkdirAllSeg e1 cs1 segs mode now2 = .ok (e1, cs1) := by
  intro segs
  induction segs with
  | nil =>
    intro e cs mode now now2 e1 cs1 h
    unfold mkdirAllSeg at h ⊢
    cases h
    rfl
  | cons s rest ih =>
    intro e cs mode now now2 e1 cs1 h
    unfold mkdirAllSeg at h
    cases hl : lookupChild cs s with
    | ok c =>
      rw [hl] at h
      cases c with
      | file d fe => simp at h
      | dir e2 cs2 =>
        simp only at h
        cases hrec : mkdirAllSeg e2 cs2 rest mode now with
        | error err =>
          rw [hrec] at h
          simp at h
        | ok pr =>
          rw [hrec] at h
          obtain ⟨e3, cs3⟩ := pr
          simp only at h
          cases h
          unfold mkdirAllSeg
          rw [lookupChild_replace cs s _ (.dir e3 cs3) hl]
          simp only
          rw [ih e2 cs2 mode now now2 e3 cs3 hrec]
          simp only [replaceChild_replaceChild]
    | error err =>
      have hne := lookupChild_error cs s err hl
      subst hne
      rw [hl] at h
      simp only at h
      cases hmk : mkdirChild e cs s mode now with
      | error err2 =>
        rw [hmk] at h
        simp at h
      | ok tri =>
        obtain ⟨d, tri2⟩ := tri
        obtain ⟨e1', cs1'⟩ := tri2
        rw [hmk] at h
        -- mkdirChild only ever returns a directory appended to the trie
        have hd : ∃ de dcs, d = .dir de dcs ∧ cs1' = addChild cs s (.dir de dcs) := by
          unfold mkdirChild at hmk
          by_cases h1 : s = ['.']
          · rw [if_pos h1] at hmk
            cases hmk
          · rw [if_neg h1] at hmk
            by_cases h2 : e.isDir = false
            · rw [if_pos h2] at hmk
              cases hmk
            · rw [if_neg h2] at hmk
              rw [hl] at hmk
              simp only at hmk
              cases hst : e.setModTime now with
              | error e4 =>
                rw [hst] at hmk
                cases hmk
              | ok pe =>
                rw [hst] at hmk
                simp only at hmk
                cases hmk
                exact ⟨_, _, rfl, rfl⟩
        obtain ⟨de, dcs, hdd, hcs1'⟩ := hd
        subst hdd
        simp only at h
        cases hrec : mkdirAllSeg de dcs rest mode now with
        | error err2 =>
          rw [hrec] at h
          simp at h
        | ok pr =>
          rw [hrec] at h
          obtain ⟨e3, cs3⟩ := pr
          simp only at h
          cases h
          unfold mkdirAllSeg
          subst hcs1'
          have hla : lookupChild (addChild cs s (.dir de dcs)) s = .ok (.dir de dcs) :=
            lookupChild_append_missing cs s _ hl
          rw [lookupChild_replace _ s _ (.dir e3 cs3) hla]
          simp only
          rw [ih de dcs mode now now2 e3 cs3 hrec]
          simp only [replaceChild_replaceChild]

/-- C9.  Whenever `mkdirAll(p)` succeeds, running it again on the resulting
filesystem succeeds as well and returns the IDENTICAL tree: every segment now
resolves to the directory the first call reused or created, so the second
call only descends (no inserts, no metadata updates).  (The success of the
first call is the implicit premise of "called twice in a row succeeds both
times": a path whose prefix names an existing regular file makes the first
call itself fail.) -/
theorem C9_mkdirAll_idempotent (t : Node) (p : GoStr) (mode now now2 : Nat)
    (t1 : Node) (h : mkdirAllPath t p mode now = .ok t1) :
    mkdirAllPath t1 p mode now2 = .ok t1 := by
  unfold mkdirAllPath at h
  cases t with
  | file d fe => cases h
  | dir e cs =>
    simp only at h
    cases hsp : splitPath p with
    | error err =>
      rw [hsp] at h
      cases h
    | ok segs =>
      rw [hsp] at h
      simp only at h
      cases hmk : mkdirAllSeg e cs segs mode now with
      | error err =>
        rw [hmk] at h
        cases h
      | ok pr =>
        rw [hmk] at h
        obtain ⟨e1, cs1⟩ := pr
        simp only at h
        cases h
        unfold mkdirAllPath
        simp only
        rw [hsp]
        simp only
        rw [mkdirAllSeg_idem segs e cs mode now now2 e1 cs1 hmk]

/-- C9, witness: creating `x/y` on a fresh filesystem and re-running the
call reproduces the same tree. -/
theorem C9_mkdirAll_idempotent_witness :
    mkdirAllPath
        ((mkdirAllPath (newMemFS 1) ['x', '/', 'y'] 436 3).toOption.getD (newMemFS 1))
        ['x', '/', 'y'] 436 9 =
      .ok ((mkdirAllPath (newMemFS 1) ['x', '/', 'y'] 436 3).toOption.getD (newMemFS 1)) :=
  C9_mkdirAll_idempotent (newMemFS 1) ['x', '/', 'y'] 436 3 9 _ rfl

theorem lookupChild_wf (cs : List (GoStr × Node)) (s : GoStr) (v : Node)
    (hwf : wfChildren cs = true) (h : lookupChild cs s = .ok v) :
    wfChild s v = true := by
  induction cs with
  | nil => cases h
  | cons hd tl ih =>
    obtain ⟨k, c⟩ := hd
    rw [wfChildren] at hwf
    rw [Bool.and_eq_true] at hwf
    unfold lookupChild at h
    by_cases hk : k == s
    · simp only [List.find?_cons, hk] at h
      cases h
      have : k = s := by simpa using hk
      subst this
      exact hwf.1
    · simp only [List.find?_cons, hk, Bool.false_eq_true] at h
      exact ih hwf.2 h

theorem getLastD_irrel (l : List GoStr) (a b : GoStr) (h : l ≠ []) :
    l.getLastD a = l.getLastD b := by
  cases l with
  | nil => exact absurd rfl h
  | cons x xs => rw [List.getLastD_cons, List.getLastD_cons]

theorem findSegP_wf : ∀ (segs : List GoStr) (e : Entry) (cs : List (GoStr × Node))
    (v : Node) (pe : Entry),
    e.isDir = true → wfChildren cs = true →
    findSegP e cs segs = .ok (v, pe) →
    wfChild (segs.getLastD []) v = true ∧ pe.isDir = true := by
  intro segs
  induction segs with
  | nil =>
    intro e cs v pe _ _ h
    cases h
  | cons s rest ih =>
    intro e cs v pe hdir hwf h
    cases rest with
    | nil =>
      unfold findSegP at h
      cases hl : lookupChild cs s with
      | error err => rw [hl] at h; cases h
      | ok n =>
        rw [hl] at h
        simp only at h
        cases h
        exact ⟨by simpa [List.getLastD_cons] using lookupChild_wf cs s v hwf hl, hdir⟩
    | cons r2 rrest =>
      unfold findSegP at h
      cases hl : lookupChild cs s with
      | error err => rw [hl] at h; cases h
      | ok c =>
        rw [hl] at h
        simp only at h
        by_cases hdir2 : c.nentry.isDir
        · rw [if_pos hdir2] at h
          cases c with
          | file d fe => cases h
          | dir e2 cs2 =>
            have hwf2 : wfChild s (.dir e2 cs2) = true := lookupChild_wf cs s _ hwf hl
            rw [wfChild] at hwf2
            simp only [Bool.and_eq_true] at hwf2
            have := ih e2 cs2 v pe (by simpa [Node.nentry] using hdir2) hwf2.2 h
            simpa [List.getLastD_cons] using this
        · rw [if_neg hdir2] at h
          cases h

theorem Entry.setSize_self (e : Entry) (h : e.attrs.size = 0) : e.setSize 0 = e := by
  unfold Entry.setSize
  by_cases hd : e.isDir
  · rw [if_pos hd]
  · rw [if_neg hd]
    cases e with
    | mk p a =>
      cases a
      simp only at h ⊢
      rw [h]

theorem findP_then_update : ∀ (segs : List GoStr) (e : Entry)
    (cs : List (GoStr × Node)) (v : Node) (pe : Entry) (n : Node),
    findSegP e cs segs = .ok (v, pe) →
    ∃ cs', updateAtSeg cs segs n = .ok cs' ∧ findSegP e cs' segs = .ok (n, pe) := by
  intro segs
  induction segs with
  | nil =>
    intro e cs v pe n h
    cases h
  | cons s rest ih =>
    intro e cs v pe n h
    cases rest with
    | nil =>
      unfold findSegP at h
      cases hl : lookupChild cs s with
      | error err => rw [hl] at h; cases h
      | ok c =>
        rw [hl] at h
        simp only at h
        cases h
        refine ⟨replaceChild cs s n, ?_, ?_⟩
        · unfold updateAtSeg
          rw [hl]
        · unfold findSegP
          rw [lookupChild_replace cs s _ n hl]
    | cons r2 rrest =>
      unfold findSegP at h
      cases hl : lookupChild cs s with
      | error err => rw [hl] at h; cases h
      | ok c =>
        rw [hl] at h
        simp only at h
        by_cases hdir2 : c.nentry.isDir
        · rw [if_pos hdir2] at h
          cases c with
          | file d fe => cases h
          | dir e2 cs2 =>
            obtain ⟨cs2', hu, hf⟩ := ih e2 cs2 v pe n h
            refine ⟨replaceChild cs s (.dir e2 cs2'), ?_, ?_⟩
            · unfold updateAtSeg
              rw [hl]
              simp only
              rw [hu]
            · unfold findSegP
              rw [lookupChild_replace cs s _ (.dir e2 cs2') hl]
              simp only
              rw [if_pos (by simpa [Node.nentry] using hdir2)]
              exact hf
        · rw [if_neg hdir2] at h
          cases h

theorem findSegP_snoc : ∀ (xs : List GoStr) (e : Entry) (cs : List (GoStr × Node))
    (de : Entry) (dcs : List (GoStr × Node)) (pe : Entry) (b : GoStr),
    findSegP e cs xs = .ok (.dir de dcs, pe) → de.isDir = true →
    findSegP e cs (xs ++ [b]) =
      (match lookupChild dcs b with
        | .ok n => .ok (n, de)
        | .error er => .error er) := by
  intro xs
  induction xs with
  | nil =>
    intro e cs de dcs pe b h
    cases h
  | cons x xs' ih =>
    intro e cs de dcs pe b h hdir
    cases xs' with
    | nil =>
      unfold findSegP at h
      cases hl : lookupChild cs x with
      | error err => rw [hl] at h; cases h
      | ok c =>
        rw [hl] at h
        simp only at h
        cases h
        show findSegP e cs (x :: [b]) = _
        unfold findSegP
        rw [hl]
        simp only
        rw [if_pos (by simpa [Node.nentry] using hdir)]
        unfold findSegP
        rfl
    | cons y ys =>
      unfold findSegP at h
      cases hl : lookupChild cs x with
      | error err => rw [hl] at h; cases h
      | ok c =>
        rw [hl] at h
        simp only at h
        by_cases hdir2 : c.nentry.isDir
        · rw [if_pos hdir2] at h
          cases c with
          | file d fe => cases h
          | dir e2 cs2 =>
            simp only at h
            show findSegP e cs (x :: (y :: ys ++ [b])) = _
            rw [show x :: (y :: ys ++ [b]) = x :: (y :: (ys ++ [b])) from rfl]
            unfold findSegP
            rw [hl]
            simp only
            rw [if_pos hdir2]
            exact ih e2 cs2 de dcs pe b h hdir
        · rw [if_neg hdir2] at h
          cases h

theorem wfChildren_append (cs1 cs2 : List (GoStr × Node))
    (h1 : wfChildren cs1 = true) (h2 : wfChildren cs2 = true) :
    wfChildren (cs1 ++ cs2) = true := by
  induction cs1 with
  | nil => simpa using h2
  | cons hd tl ih =>
    obtain ⟨k, c⟩ := hd
    rw [wfChildren, Bool.and_eq_true] at h1
    rw [List.cons_append, wfChildren, Bool.and_eq_true]
    exact ⟨h1.1, ih h1.2⟩

theorem wfChild_dir_parts (k : GoStr) (e2 : Entry) (cs2 : List (GoStr × Node))
    (h : wfChild k (.dir e2 cs2) = true) :
    k ≠ ['.'] ∧ e2.path = k ∧ e2.isDir = true ∧ wfChildren cs2 = true := by
  rw [wfChild] at h
  simp only [Bool.and_eq_true, Bool.not_eq_true', beq_eq_false_iff_ne, ne_eq,
    beq_iff_eq] at h
  exact ⟨h.1.1.1, h.1.1.2, h.1.2, h.2⟩

theorem wfChild_dir_make (k : GoStr) (e2 : Entry) (cs2 : List (GoStr × Node))
    (h1 : k ≠ ['.']) (h2 : e2.path = k) (h3 : e2.isDir = true)
    (h4 : wfChildren cs2 = true) : wfChild k (.dir e2 cs2) = true := by
  rw [wfChild]
  simp only [Bool.and_eq_true, Bool.not_eq_true', beq_eq_false_iff_ne, ne_eq,
    beq_iff_eq]
  exact ⟨⟨⟨h1, h2⟩, h3⟩, h4⟩

theorem wfChild_file_parts (k : GoStr) (d : List Nat) (fe : Entry)
    (h : wfChild k (.file d fe) = true) :
    (k = ['.'] → fe.path = ['.'] ∧ fe.isDir = true) ∧
    (k ≠ ['.'] → fe.path = k ∧ fe.isDir = false) := by
  rw [wfChild] at h
  constructor
  · intro hk
    rw [if_pos hk] at h
    simp only [Bool.and_eq_true, beq_iff_eq] at h
    exact h
  · intro hk
    rw [if_neg hk] at h
    simp only [Bool.and_eq_true, beq_iff_eq, Bool.not_eq_true'] at h
    exact h

theorem isDir_lor_modeDir (mode : Nat) :
    Nat.testBit (mode ||| modeDir) 31 = true := by
  rw [Nat.testBit_or]
  have h31 : Nat.testBit modeDir 31 = true := by
    unfold modeDir
    exact Nat.testBit_two_pow_self
  rw [h31, Bool.or_true]

theorem wfChild_newDirNode (s : GoStr) (mode now : Nat) (hs : s ≠ ['.']) :
    wfChild s (newDirNode s mode now) = true := by
  unfold newDirNode
  apply wfChild_dir_make _ _ _ hs rfl
  · exact isDir_lor_modeDir mode
  · rw [wfChildren, Bool.and_eq_true]
    constructor
    · rw [wfChild, if_pos rfl]
      rw [Bool.and_eq_true]
      exact ⟨rfl, isDir_lor_modeDir mode⟩
    · rfl

theorem mkdirChild_ok (e : Entry) (cs : List (GoStr × Node)) (s : GoStr)
    (mode now : Nat) (d : Node) (e1 : Entry) (cs1 : List (GoStr × Node))
    (h : mkdirChild e cs s mode now = .ok (d, e1, cs1)) :
    s ≠ ['.'] ∧ e.isDir = true ∧ d = newDirNode s mode now ∧
    cs1 = addChild cs s d ∧ e.setModTime now = .ok e1 ∧
    lookupChild cs s = .error .notExist := by
  unfold mkdirChild at h
  by_cases h1 : s = ['.']
  · rw [if_pos h1] at h
    cases h
  · rw [if_neg h1] at h
    by_cases h2 : e.isDir = false
    · rw [if_pos h2] at h
      cases h
    · rw [if_neg h2] at h
      cases hl : lookupChild cs s with
      | ok c =>
        rw [hl] at h
        cases h
      | error err =>
        have := lookupChild_error cs s err hl
        subst this
        rw [hl] at h
        simp only at h
        cases hst : e.setModTime now with
        | error e4 =>
          rw [hst] at h
          cases h
        | ok pe =>
          rw [hst] at h
          simp only at h
          cases h
          exact ⟨h1, by simpa using h2, rfl, rfl, rfl, rfl⟩

theorem wfChildren_replace (cs : List (GoStr × Node)) (s : GoStr) (n : Node)
    (hwf : wfChildren cs = true) (hn : wfChild s n = true) :
    wfChildren (replaceChild cs s n) = true := by
  induction cs with
  | nil => simpa using hwf
  | cons hd tl ih =>
    obtain ⟨k, c⟩ := hd
    rw [wfChildren, Bool.and_eq_true] at hwf
    unfold replaceChild
    rw [List.map_cons]
    by_cases hk : (k, c).1 == s
    · rw [if_pos hk]
      rw [wfChildren, Bool.and_eq_true]
      exact ⟨hn, by simpa [replaceChild] using ih hwf.2⟩
    · rw [if_neg hk]
      rw [wfChildren, Bool.and_eq_true]
      exact ⟨hwf.1, by simpa [replaceChild] using ih hwf.2⟩

theorem mkdirAllSeg_main : ∀ (segs : List GoStr) (e : Entry)
    (cs : List (GoStr × Node)) (mode now : Nat) (e1 : Entry)
    (cs1 : List (GoStr × Node)),
    mkdirAllSeg e cs segs mode now = .ok (e1, cs1) →
    e.isDir = true → wfChildren cs = true →
    e1.isDir = true ∧ e1.path = e.path ∧ wfChildren cs1 = true ∧
      (segs = [] ∨
        ∃ de dcs pe, findSegP e1 cs1 segs = .ok (.dir de dcs, pe) ∧
          de.isDir = true ∧ wfChildren dcs = true) := by
  intro segs
  induction segs with
  | nil =>
    intro e cs mode now e1 cs1 h hdir hwf
    unfold mkdirAllSeg at h
    cases h
    exact ⟨hdir, rfl, hwf, .inl rfl⟩
  | cons s rest ih =>
    intro e cs mode now e1 cs1 h hdir hwf
    unfold mkdirAllSeg at h
    cases hl : lookupChild cs s with
    | ok c =>
      rw [hl] at h
      cases c with
      | file d fe => simp at h
      | dir e2 cs2 =>
        simp only at h
        cases hrec : mkdirAllSeg e2 cs2 rest mode now with
        | error err =>
          rw [hrec] at h
          simp at h
        | ok pr =>
          rw [hrec] at h
          obtain ⟨e3, cs3⟩ := pr
          simp only at h
          cases h
          obtain ⟨hs, hpath2, hdir2, hwf2⟩ :=
            wfChild_dir_parts s e2 cs2 (lookupChild_wf cs s _ hwf hl)
          obtain ⟨hdir3, hpath3, hwf3, hdisj⟩ := ih e2 cs2 mode now e3 cs3 hrec hdir2 hwf2
          have hchild3 : wfChild s (.dir e3 cs3) = true :=
            wfChild_dir_make s e3 cs3 hs (by rw [hpath3, hpath2]) hdir3 hwf3
          refine ⟨hdir, rfl, wfChildren_replace cs s _ hwf hchild3, .inr ?_⟩
          have hlr : lookupChild (replaceChild cs s (.dir e3 cs3)) s = .ok (.dir e3 cs3) :=
            lookupChild_replace cs s _ _ hl
          cases rest with
          | nil =>
            refine ⟨e3, cs3, e, ?_, hdir3, hwf3⟩
            unfold findSegP
            rw [hlr]
          | cons r2 rrest =>
            rcases hdisj with hfalse | ⟨de, dcs, pe, hf, hde, hwfd⟩
            · cases hfalse
            · refine ⟨de, dcs, pe, ?_, hde, hwfd⟩
              unfold findSegP
              rw [hlr]
              simp only
              rw [if_pos (by simpa [Node.nentry] using hdir3)]
              exact hf
    | error err =>
      have := lookupChild_error cs s err hl
      subst this
      rw [hl] at h
      simp only at h
      cases hmk : mkdirChild e cs s mode now with
      | error err2 =>
        rw [hmk] at h
        simp at h
      | ok tri =>
        obtain ⟨d, tri2⟩ := tri
        obtain ⟨e1', cs1'⟩ := tri2
        rw [hmk] at h
        obtain ⟨hs, -, hd, hcs1', hst, -⟩ := mkdirChild_ok e cs s mode now d e1' cs1' hmk
        subst hd
        unfold newDirNode at h hcs1'
        simp only at h
        cases hrec : mkdirAllSeg
            { path := s, attrs := { ctime := now, mtime := 0, mode := mode ||| modeDir, size := 0 } }
            [((['.'] : GoStr), .file []
              { path := ['.'], attrs := { ctime := now, mtime := 0, mode := mode ||| modeDir, size := 0 } })]
            rest mode now with
        | error err2 =>
          rw [hrec] at h
          simp at h
        | ok pr =>
          rw [hrec] at h
          obtain ⟨e3, cs3⟩ := pr
          simp only at h
          cases h
          have hwfd0 : wfChild s (newDirNode s mode now) = true :=
            wfChild_newDirNode s mode now hs
          obtain ⟨hsd, hpathd, hdird, hwfdd⟩ :=
            wfChild_dir_parts s _ _ (by simpa [newDirNode] using hwfd0)
          obtain ⟨hdir3, hpath3, hwf3, hdisj⟩ :=
            ih _ _ mode now e3 cs3 hrec hdird hwfdd
          obtain ⟨hp1, hm1, -, -⟩ := setModTime_ok_shape e now e1 hst
          have hchild3 : wfChild s (.dir e3 cs3) = true :=
            wfChild_dir_make s e3 cs3 hs (by rw [hpath3]) hdir3 hwf3
          have hwfadd : wfChildren (addChild cs s (newDirNode s mode now)) = true := by
            unfold addChild
            apply wfChildren_append cs _ hwf
            rw [wfChildren, Bool.and_eq_true]
            exact ⟨hwfd0, rfl⟩
          have hla : lookupChild (addChild cs s (newDirNode s mode now)) s =
              .ok (newDirNode s mode now) :=
            lookupChild_append_missing cs s _ hl
          have hlr : lookupChild
              (replaceChild (addChild cs s (newDirNode s mode now)) s (.dir e3 cs3)) s =
              .ok (.dir e3 cs3) :=
            lookupChild_replace _ s _ _ hla
          refine ⟨by rw [Entry.isDir, hm1]; exact hdir, hp1, ?_, .inr ?_⟩
          · rw [hcs1']
            exact wfChildren_replace _ s _ hwfadd hchild3
          · rw [hcs1']
            cases rest with
            | nil =>
              refine ⟨e3, cs3, e1, ?_, hdir3, hwf3⟩
              unfold findSegP
              rw [show addChild cs s (.dir
                { path := s, attrs := { ctime := now, mtime := 0, mode := mode ||| modeDir, size := 0 } }
                [((['.'] : GoStr), .file []
                  { path := ['.'], attrs := { ctime := now, mtime := 0, mode := mode ||| modeDir, size := 0 } })]) =
                addChild cs s (newDirNode s mode now) from rfl]
              rw [hlr]
            | cons r2 rrest =>
              rcases hdisj with hfalse | ⟨de, dcs, pe, hf, hde, hwfd⟩
              · cases hfalse
              · refine ⟨de, dcs, pe, ?_, hde, hwfd⟩
                unfold findSegP
                rw [show addChild cs s (.dir
                  { path := s, attrs := { ctime := now, mtime := 0, mode := mode ||| modeDir, size := 0 } }
                  [((['.'] : GoStr), .file []
                    { path := ['.'], attrs := { ctime := now, mtime := 0, mode := mode ||| modeDir, size := 0 } })]) =
                  addChild cs s (newDirNode s mode now) from rfl]
                rw [hlr]
                simp only
                rw [if_pos (by simpa [Node.nentry] using hdir3)]
                exact hf

/-- Characterization of `open` with `WriteFile`'s flag set
`O_RDWR|O_CREATE|O_TRUNC` on a well-formed tree: the handle is fresh (open,
cursors at 0) and the returned tree is a directory node; moreover either the
handle is a regular-file handle carrying the full flag set whose returned
location resolves in the returned tree, or the handle was downgraded to
read-only (directory target), or it is a directory's `"."` cell, whose
`fd.dir` entry has the directory bit. -/
theorem openPathW_ok (t : Node) (name : GoStr) (mode now : Nat)
    (f : File) (t1 : Node) (loc : List GoStr) (hwf : wfN t = true)
    (h : openPath t name (O_RDWR ||| O_CREATE ||| O_TRUNC) mode now
      = .ok (f, t1, loc)) :
    f.closed = false ∧ f.rOff = 0 ∧ f.wOff = 0 ∧
    ∃ e1 cs1, t1 = .dir e1 cs1 ∧
      ((f.flag = (O_RDWR ||| O_CREATE ||| O_TRUNC) ∧ f.fd.entry.isDir = false ∧
        f.fd.entry.path ≠ ['.'] ∧ splitPath name = .ok loc ∧
        ∃ v pe, findSegP e1 cs1 loc = .ok (v, pe)) ∨
       f.flag = O_RDONLY ∨
       (f.fd.entry.path = ['.'] ∧ f.fd.dirEntry.isDir = true)) := by
  cases t with
  | file d0 e0 =>
    unfold openPath at h
    cases h
  | dir re rcs =>
    rw [wfN, Bool.and_eq_true] at hwf
    obtain ⟨hredir, hwfr⟩ := hwf
    unfold openPath at h
    cases hsp : splitPath name with
    | error er => rw [hsp] at h; cases h
    | ok segs =>
      rw [hsp] at h
      simp only at h
      cases hfind : findSegP re rcs segs with
      | ok pr =>
        obtain ⟨v0, pe⟩ := pr
        rw [hfind] at h
        cases v0 with
        | file d fe =>
          simp only at h
          by_cases hdirv : fe.isDir = false
          · rw [if_pos hdirv] at h
            rw [if_pos (show (O_RDWR ||| O_CREATE ||| O_TRUNC) &&& O_TRUNC ≠ 0 by decide)] at h
            rw [show (newFile { data := d, entry := fe, dirEntry := pe }
              (O_RDWR ||| O_CREATE ||| O_TRUNC)).fd.entry = fe.setSize 0 from rfl] at h
            obtain ⟨cs', hupd, hfa⟩ :=
              findP_then_update segs re rcs (.file d fe) pe (.file d (fe.setSize 0)) hfind
            have hlast := findSegP_wf segs re rcs (.file d fe) pe hredir hwfr hfind
            have hsegne : segs ≠ [] := by
              intro hnil
              rw [hnil] at hfind
              simp [findSegP] at hfind
            have hlne : segs.getLastD [] ≠ ['.'] := by
              rcases splitPath_segs name segs hsp with hd | hall
              · rw [hd] at hlast
                have hpp := (wfChild_file_parts _ d fe hlast.1).1 rfl
                rw [hpp.2] at hdirv
                exact Bool.noConfusion hdirv
              · exact (hall _ (getLastD_mem segs [] hsegne)).2.1
            have hfp := (wfChild_file_parts _ d fe hlast.1).2 hlne
            rw [hupd] at h
            simp only at h
            cases h
            refine ⟨rfl, rfl, rfl, re, cs', rfl,
              .inl ⟨rfl, ?_, ?_, rfl, .file d (fe.setSize 0), pe, hfa⟩⟩
            · show (fe.setSize 0).isDir = false
              rw [(Entry.setSize_shape fe 0).2.2]
              exact hdirv
            · show (fe.setSize 0).path ≠ ['.']
              rw [(Entry.setSize_shape fe 0).1, hfp.1]
              exact hlne
          · rw [if_neg hdirv] at h
            cases h
            exact ⟨rfl, rfl, rfl, re, rcs, rfl, .inr (.inl rfl)⟩
        | dir e2 cs2 =>
          simp only at h
          cases hdl : lookupChild cs2 ['.'] with
          | ok c =>
            cases c with
            | file dd dotE =>
              rw [hdl] at h
              simp only at h
              cases h
              exact ⟨rfl, rfl, rfl, re, rcs, rfl, .inr (.inl rfl)⟩
            | dir e3 cs3 =>
              rw [hdl] at h
              cases h
          | error er =>
            rw [hdl] at h
            cases h
      | error err =>
        rw [hfind] at h
        cases err with
        | exist => cases h
        | invalid => cases h
        | closed => cases h
        | isDirErr => cases h
        | notDir => cases h
        | notFile => cases h
        | tooLarge => cases h
        | mtimeMismatch => cases h
        | ctimeMismatch => cases h
        | writeOnly => cases h
        | readOnly => cases h
        | notImplemented => cases h
        | nilReader => cases h
        | eof => cases h
        | diverge => cases h
        | sliceOutOfRange => cases h
        | invalidCast => cases h
        | notExist =>
          simp only at h
          rw [if_pos (show (O_RDWR ||| O_CREATE ||| O_TRUNC) &&& O_CREATE ≠ 0 by decide)] at h
          unfold createPath at h
          by_cases hmd : Nat.testBit mode 31
          · rw [if_pos hmd] at h
            cases hmk : mkdirAllSeg re rcs segs mode now with
            | error er2 => rw [hmk] at h; cases h
            | ok pr =>
              obtain ⟨re1, rcs1⟩ := pr
              rw [hmk] at h
              simp only at h
              obtain ⟨hdir1, hpath1, hwf1, hdisj⟩ :=
                mkdirAllSeg_main segs re rcs mode now re1 rcs1 hmk hredir hwfr
              rcases hdisj with hnil | ⟨de, dcs, pe2, hf2, hde, hwfd⟩
              · rw [hnil] at h
                simp [findSegP] at h
              · rw [hf2] at h
                simp only at h
                cases hdl : lookupChild dcs ['.'] with
                | ok c =>
                  cases c with
                  | file dd dotE =>
                    have hnfd : newfdChildren de dcs ['.']
                        (O_RDWR ||| O_CREATE ||| O_TRUNC) mode now
                        = .ok ({ data := dd, entry := dotE, dirEntry := de }, dcs, false) := by
                      unfold newfdChildren
                      rw [hdl]
                    rw [hnfd] at h
                    simp only at h
                    obtain ⟨cs', hupd, hfa⟩ :=
                      findP_then_update segs re1 rcs1 (.dir de dcs) pe2 (.dir de dcs) hf2
                    rw [hupd] at h
                    simp only at h
                    cases h
                    have hdparts := wfChild_file_parts ['.'] dd dotE
                      (lookupChild_wf dcs ['.'] _ hwfd hdl)
                    refine ⟨rfl, rfl, rfl, re1, cs', rfl, .inr (.inr ⟨?_, hde⟩)⟩
                    show (dotE.setSize 0).path = ['.']
                    rw [(Entry.setSize_shape dotE 0).1]
                    exact (hdparts.1 rfl).1
                  | dir e3 cs3 =>
                    have hwc := lookupChild_wf dcs ['.'] _ hwfd hdl
                    rw [wfChild] at hwc
                    simp at hwc
                | error er2 =>
                  have her := lookupChild_error dcs ['.'] er2 hdl
                  rw [her] at hdl
                  have hnfd : newfdChildren de dcs ['.']
                      (O_RDWR ||| O_CREATE ||| O_TRUNC) mode now
                      = .ok ({ data := [], entry := newEntryAt ['.'] mode now, dirEntry := de },
                        addChild dcs ['.'] (.file [] (newEntryAt ['.'] mode now)), false) := by
                    unfold newfdChildren
                    rw [hdl]
                    simp only
                    rw [if_pos (show (O_RDWR ||| O_CREATE ||| O_TRUNC) &&& O_CREATE ≠ 0 by decide)]
                    rw [if_pos (show validPath ['.'] = true by decide)]
                  rw [hnfd] at h
                  simp only at h
                  obtain ⟨cs', hupd, hfa⟩ :=
                    findP_then_update segs re1 rcs1 (.dir de dcs) pe2
                      (.dir de (addChild dcs ['.'] (.file [] (newEntryAt ['.'] mode now)))) hf2
                  rw [hupd] at h
                  simp only at h
                  cases h
                  refine ⟨rfl, rfl, rfl, re1, cs', rfl, .inr (.inr ⟨?_, hde⟩)⟩
                  show (Entry.setSize (newEntryAt ['.'] mode now) 0).path = ['.']
                  rw [(Entry.setSize_shape _ 0).1]
                  rfl
          · rw [if_neg hmd] at h
            have hmd' : Nat.testBit mode 31 = false := by simpa using hmd
            cases segs with
            | nil => cases h
            | cons s1 srest =>
              cases srest with
              | nil =>
                simp only at h
                have hl1 : lookupChild rcs s1 = .error .notExist := by
                  unfold findSegP at hfind
                  cases hll : lookupChild rcs s1 with
                  | ok c =>
                    rw [hll] at hfind
                    simp at hfind
                  | error er3 =>
                    have h9 := lookupChild_error rcs s1 er3 hll
                    rw [h9]
                by_cases hvp : validPath s1
                · have hnfd : newfdChildren re rcs s1
                      (O_RDWR ||| O_CREATE ||| O_TRUNC) mode now
                      = .ok ({ data := [], entry := newEntryAt s1 mode now, dirEntry := re },
                        addChild rcs s1 (.file [] (newEntryAt s1 mode now)), false) := by
                    unfold newfdChildren
                    rw [hl1]
                    simp only
                    rw [if_pos (show (O_RDWR ||| O_CREATE ||| O_TRUNC) &&& O_CREATE ≠ 0 by decide)]
                    rw [if_pos hvp]
                  rw [hnfd] at h
                  simp only at h
                  cases h
                  rcases splitPath_segs name [s1] hsp with hdd | hall
                  · have hs1 : s1 = ['.'] := by
                      injection hdd with h1 h2
                    refine ⟨rfl, rfl, rfl, re, _, rfl, .inr (.inr ⟨?_, hredir⟩)⟩
                    show (Entry.setSize (newEntryAt s1 mode now) 0).path = ['.']
                    rw [(Entry.setSize_shape _ 0).1]
                    exact hs1
                  · have hs1 : s1 ≠ ['.'] := (hall s1 (by simp)).2.1
                    refine ⟨rfl, rfl, rfl, re, _, rfl, .inl ⟨rfl, ?_, ?_, rfl, ?_⟩⟩
                    · show (Entry.setSize (newEntryAt s1 mode now) 0).isDir = false
                      rw [(Entry.setSize_shape _ 0).2.2]
                      exact hmd'
                    · show (Entry.setSize (newEntryAt s1 mode now) 0).path ≠ ['.']
                      rw [(Entry.setSize_shape _ 0).1]
                      exact hs1
                    · refine ⟨.file [] (newEntryAt s1 mode now), re, ?_⟩
                      show findSegP re (addChild rcs s1 (.file [] (newEntryAt s1 mode now))) [s1]
                        = .ok (.file [] (newEntryAt s1 mode now), re)
                      unfold findSegP
                      rw [lookupChild_append_missing rcs s1 _ hl1]
                · have hnfd : newfdChildren re rcs s1
                      (O_RDWR ||| O_CREATE ||| O_TRUNC) mode now = .error .invalid := by
                    unfold newfdChildren
                    rw [hl1]
                    simp only
                    rw [if_pos (show (O_RDWR ||| O_CREATE ||| O_TRUNC) &&& O_CREATE ≠ 0 by decide)]
                    rw [if_neg hvp]
                  rw [hnfd] at h
                  cases h
              | cons s2 srest2 =>
                simp only at h
                cases hmk : mkdirAllSeg re rcs ((s1 :: s2 :: srest2).dropLast) mode now with
                | error er2 => rw [hmk] at h; cases h
                | ok pr =>
                  obtain ⟨re1, rcs1⟩ := pr
                  rw [hmk] at h
                  simp only at h
                  obtain ⟨hdir1, hpath1, hwf1, hdisj⟩ :=
                    mkdirAllSeg_main _ re rcs mode now re1 rcs1 hmk hredir hwfr
                  rcases hdisj with hff | ⟨de, dcs, pe2, hf2, hde2, hwfd2⟩
                  · have hff' : s1 :: (s2 :: srest2).dropLast = [] := by
                      rw [show (s1 :: s2 :: srest2).dropLast
                        = s1 :: (s2 :: srest2).dropLast from rfl] at hff
                      exact hff
                    cases hff'
                  · rw [hf2] at h
                    simp only at h
                    have hbne : (s1 :: s2 :: srest2).getLastD [] ≠ ['.'] := by
                      rcases splitPath_segs name _ hsp with hdd | hall
                      · simp at hdd
                      · exact (hall _ (getLastD_mem _ [] (by simp))).2.1
                    have hfrB : (s1 :: s2 :: srest2).dropLast
                        ++ [(s1 :: s2 :: srest2).getLastD []] = s1 :: s2 :: srest2 :=
                      dropLast_append_getLastD _ [] (by simp)
                    cases hdl : lookupChild dcs ((s1 :: s2 :: srest2).getLastD []) with
                    | ok c =>
                      cases c with
                      | file d2 fe2 =>
                        have hnfd : newfdChildren de dcs ((s1 :: s2 :: srest2).getLastD [])
                            (O_RDWR ||| O_CREATE ||| O_TRUNC) mode now
                            = .ok ({ data := d2, entry := fe2, dirEntry := de }, dcs, false) := by
                          unfold newfdChildren
                          rw [hdl]
                        rw [hnfd] at h
                        simp only at h
                        obtain ⟨cs', hupd, hfa⟩ :=
                          findP_then_update _ re1 rcs1 (.dir de dcs) pe2 (.dir de dcs) hf2
                        rw [hupd] at h
                        simp only at h
                        cases h
                        have hfp := (wfChild_file_parts _ d2 fe2
                          (lookupChild_wf dcs _ _ hwfd2 hdl)).2 hbne
                        refine ⟨rfl, rfl, rfl, re1, cs', rfl, .inl ⟨rfl, ?_, ?_, rfl, ?_⟩⟩
                        · show (fe2.setSize 0).isDir = false
                          rw [(Entry.setSize_shape fe2 0).2.2]
                          exact hfp.2
                        · show (fe2.setSize 0).path ≠ ['.']
                          rw [(Entry.setSize_shape fe2 0).1, hfp.1]
                          exact hbne
                        · have hsn := findSegP_snoc ((s1 :: s2 :: srest2).dropLast) re1 cs'
                            de dcs pe2 ((s1 :: s2 :: srest2).getLastD []) hfa hde2
                          rw [hfrB, hdl] at hsn
                          simp only at hsn
                          exact ⟨.file d2 fe2, de, hsn⟩
                      | dir e3 cs3 =>
                        cases hdl3 : lookupChild cs3 ['.'] with
                        | ok c3 =>
                          cases c3 with
                          | file dd3 dotE3 =>
                            have hnfd : newfdChildren de dcs ((s1 :: s2 :: srest2).getLastD [])
                                (O_RDWR ||| O_CREATE ||| O_TRUNC) mode now
                                = .ok ({ data := dd3, entry := dotE3, dirEntry := e3 },
                                    dcs, true) := by
                              unfold newfdChildren
                              rw [hdl]
                              simp only
                              rw [hdl3]
                            rw [hnfd] at h
                            simp only at h
                            obtain ⟨cs', hupd, hfa⟩ :=
                              findP_then_update _ re1 rcs1 (.dir de dcs) pe2 (.dir de dcs) hf2
                            rw [hupd] at h
                            simp only at h
                            cases h
                            have hwd3 := wfChild_dir_parts _ e3 cs3
                              (lookupChild_wf dcs _ _ hwfd2 hdl)
                            have hdot3 := wfChild_file_parts ['.'] dd3 dotE3
                              (lookupChild_wf cs3 ['.'] _ hwd3.2.2.2 hdl3)
                            refine ⟨rfl, rfl, rfl, re1, cs', rfl, .inr (.inr ⟨?_, ?_⟩)⟩
                            · show (dotE3.setSize 0).path = ['.']
                              rw [(Entry.setSize_shape dotE3 0).1]
                              exact (hdot3.1 rfl).1
                            · exact hwd3.2.2.1
                          | dir e4 cs4 =>
                            have hnfd : newfdChildren de dcs ((s1 :: s2 :: srest2).getLastD [])
                                (O_RDWR ||| O_CREATE ||| O_TRUNC) mode now
                                = .error .invalidCast := by
                              unfold newfdChildren
                              rw [hdl]
                              simp only
                              rw [hdl3]
                            rw [hnfd] at h
                            cases h
                        | error er3 =>
                          have hnfd : newfdChildren de dcs ((s1 :: s2 :: srest2).getLastD [])
                              (O_RDWR ||| O_CREATE ||| O_TRUNC) mode now
                              = .error er3 := by
                            unfold newfdChildren
                            rw [hdl]
                            simp only
                            rw [hdl3]
                          rw [hnfd] at h
                          cases h
                    | error er2 =>
                      have her := lookupChild_error dcs _ er2 hdl
                      rw [her] at hdl
                      by_cases hvp : validPath ((s1 :: s2 :: srest2).getLastD [])
                      · have hnfd : newfdChildren de dcs ((s1 :: s2 :: srest2).getLastD [])
                            (O_RDWR ||| O_CREATE ||| O_TRUNC) mode now
                            = .ok ({ data := [],
                                     entry := newEntryAt ((s1 :: s2 :: srest2).getLastD []) mode now,
                                     dirEntry := de },
                              addChild dcs ((s1 :: s2 :: srest2).getLastD [])
                                (.file [] (newEntryAt ((s1 :: s2 :: srest2).getLastD []) mode now)),
                              false) := by
                          unfold newfdChildren
                          rw [hdl]
                          simp only
                          rw [if_pos (show (O_RDWR ||| O_CREATE ||| O_TRUNC) &&& O_CREATE ≠ 0 by decide)]
                          rw [if_pos hvp]
                        rw [hnfd] at h
                        simp only at h
                        obtain ⟨cs', hupd, hfa⟩ :=
                          findP_then_update _ re1 rcs1 (.dir de dcs) pe2
                            (.dir de (addChild dcs ((s1 :: s2 :: srest2).getLastD [])
                              (.file [] (newEntryAt ((s1 :: s2 :: srest2).getLastD []) mode now)))) hf2
                        rw [hupd] at h
                        simp only at h
                        cases h
                        refine ⟨rfl, rfl, rfl, re1, cs', rfl, .inl ⟨rfl, ?_, ?_, rfl, ?_⟩⟩
                        · show (Entry.setSize
                            (newEntryAt ((s1 :: s2 :: srest2).getLastD []) mode now) 0).isDir = false
                          rw [(Entry.setSize_shape _ 0).2.2]
                          exact hmd'
                        · show (Entry.setSize
                            (newEntryAt ((s1 :: s2 :: srest2).getLastD []) mode now) 0).path ≠ ['.']
                          rw [(Entry.setSize_shape _ 0).1]
                          exact hbne
                        · have hsn := findSegP_snoc ((s1 :: s2 :: srest2).dropLast) re1 cs'
                            de (addChild dcs ((s1 :: s2 :: srest2).getLastD [])
                              (.file [] (newEntryAt ((s1 :: s2 :: srest2).getLastD []) mode now)))
                            pe2 ((s1 :: s2 :: srest2).getLastD []) hfa hde2
                          rw [hfrB] at hsn
                          rw [lookupChild_append_missing dcs _ _ hdl] at hsn
                          simp only at hsn
                          exact ⟨.file [] (newEntryAt ((s1 :: s2 :: srest2).getLastD []) mode now),
                            de, hsn⟩
                      · have hnfd : newfdChildren de dcs ((s1 :: s2 :: srest2).getLastD [])
                            (O_RDWR ||| O_CREATE ||| O_TRUNC) mode now
                            = .error .invalid := by
                          unfold newfdChildren
                          rw [hdl]
                          simp only
                          rw [if_pos (show (O_RDWR ||| O_CREATE ||| O_TRUNC) &&& O_CREATE ≠ 0 by decide)]
                          rw [if_neg hvp]
                        rw [hnfd] at h
                        cases h

/-- C1: on a well-formed in-memory filesystem, after a successful
`MemFS.WriteFile(name, data)` a `MemFS.ReadFile(name)` returns exactly the
written bytes. -/
theorem C1_writeFile_readFile_roundtrip (t : Node) (name : GoStr)
    (data : List Nat) (mode now : Nat) (t1 : Node) (hwf : wfN t = true)
    (hw : writeFilePath t name data mode now = .ok t1) :
    readFilePath t1 name = .ok data := by
  unfold writeFilePath at hw
  cases hop : openPath t name (O_RDWR ||| O_CREATE ||| O_TRUNC) mode now with
  | error e => rw [hop] at hw; cases hw
  | ok tri =>
    obtain ⟨f, t1', loc⟩ := tri
    rw [hop] at hw
    simp only at hw
    obtain ⟨hcl, hro, hwo, e1, cs1, ht1', hcase⟩ :=
      openPathW_ok t name mode now f t1' loc hwf hop
    cases hwr : f.write data now with
    | mk res f1 =>
      obtain ⟨n, oe⟩ := res
      rw [hwr] at hw
      cases oe with
      | some e => cases hw
      | none =>
        simp only at hw
        subst ht1'
        simp only at hw
        unfold File.write at hwr
        cases hcw : f.checkWrite with
        | error e2 =>
          rw [hcw] at hwr
          simp at hwr
        | ok fi =>
          rw [hcw] at hwr
          obtain ⟨-, hdotfi, hfid, hfidir, hflne⟩ := checkWrite_ok f fi hcw
          rcases hcase with ⟨hfl, hdir, hdot, hspl, v, pe, hfind1⟩ | hrd | ⟨hdotp, hdE⟩
          · cases hg : grow f.fd.data data.length with
            | error e3 => rw [hg] at hwr; simp at hwr
            | ok data1 =>
              rw [hg] at hwr
              cases hmt : f.fd.entry.setModTime now with
              | error e4 => rw [hmt] at hwr; simp at hwr
              | ok e2 =>
                rw [hmt] at hwr
                simp only at hwr
                rw [Prod.mk.injEq, Prod.mk.injEq] at hwr
                obtain ⟨⟨hn, -⟩, hf1⟩ := hwr
                obtain ⟨hd1eq, hd1len⟩ := grow_ok f.fd.data data.length data1 hg
                have hcap : f.fd.data.length + data.length ≤ data1.length := by
                  rw [hd1len]
                  exact growCap_ge _
                have hlen : goCopyAtLen data1 f.wOff data = data.length := by
                  unfold goCopyAtLen
                  rw [hwo]
                  omega
                have hdata2 : goCopyAt data1 f.wOff data = goCopy data1 data := by
                  rw [hwo]
                  unfold goCopyAt
                  rw [List.take_zero, List.drop_zero, List.nil_append]
                subst hf1
                simp only at hw
                obtain ⟨hp2, hm2, hs2, -⟩ := setModTime_ok_shape f.fd.entry now e2 hmt
                have he2dir : e2.isDir = false := by
                  unfold Entry.isDir
                  rw [hm2]
                  exact hdir
                have hW : f.wOff + goCopyAtLen data1 f.wOff data = data.length := by
                  omega
                have hEpath : (e2.setSize (f.wOff + goCopyAtLen data1 f.wOff data)).path
                    = f.fd.entry.path := by
                  rw [(Entry.setSize_shape _ _).1, hp2]
                have hEdir : (e2.setSize (f.wOff + goCopyAtLen data1 f.wOff data)).isDir
                    = false := by
                  rw [(Entry.setSize_shape _ _).2.2]
                  exact he2dir
                have hEsize : (e2.setSize
                    (f.wOff + goCopyAtLen data1 f.wOff data)).attrs.size = data.length := by
                  rw [Entry.setSize_size _ _ he2dir, hW]
                obtain ⟨cs2', hupd, hfa⟩ := findP_then_update loc e1 cs1 v pe
                  (.file (goCopyAt data1 f.wOff data)
                    (e2.setSize (f.wOff + goCopyAtLen data1 f.wOff data))) hfind1
                rw [hupd] at hw
                simp only at hw
                cases hw
                unfold readFilePath openPath
                simp only
                rw [hspl]
                simp only
                rw [hfa]
                simp only
                rw [if_pos hEdir]
                rw [if_neg (show ¬((O_RDONLY : Nat) &&& O_TRUNC ≠ 0) by decide)]
                simp only
                show readAllFuel
                  ((e2.setSize (f.wOff + goCopyAtLen data1 f.wOff data)).attrs.size + 1)
                  { closed := false,
                    fd := { data := goCopyAt data1 f.wOff data,
                            entry := e2.setSize (f.wOff + goCopyAtLen data1 f.wOff data),
                            dirEntry := pe },
                    flag := O_RDONLY, rOff := 0, wOff := 0 } [] = .ok data
                have hsize : (e2.setSize
                    (f.wOff + goCopyAtLen data1 f.wOff data)).attrs.size
                    ≤ (goCopyAt data1 f.wOff data).length := by
                  rw [hEsize, goCopyAt_length data1 f.wOff data (by omega)]
                  omega
                rw [readAllFuel_spec
                  ((e2.setSize (f.wOff + goCopyAtLen data1 f.wOff data)).attrs.size + 1)
                  { closed := false,
                    fd := { data := goCopyAt data1 f.wOff data,
                            entry := e2.setSize (f.wOff + goCopyAtLen data1 f.wOff data),
                            dirEntry := pe },
                    flag := O_RDONLY, rOff := 0, wOff := 0 } []
                  rfl
                  (show (e2.setSize (f.wOff + goCopyAtLen data1 f.wOff data)).path ≠ ['.'] by
                    rw [hEpath]
                    exact hdot)
                  hEdir
                  (show (O_RDONLY : Nat) ≠ O_WRONLY by decide)
                  hsize
                  (show (e2.setSize (f.wOff + goCopyAtLen data1 f.wOff data)).attrs.size - 0
                      < (e2.setSize (f.wOff + goCopyAtLen data1 f.wOff data)).attrs.size + 1 by
                    omega)]
                simp only [List.nil_append, List.drop_zero]
                rw [hEsize, hdata2, goCopy_prefix data1 data (by omega)]
          · exact absurd hrd hflne
          · have hfie : fi = f.fd.dirEntry := hdotfi hdotp
            rw [hfie, hdE] at hfidir
            exact Bool.noConfusion hfidir

/-- C1, witness: writing `[1, 2]` to the fresh path `"a"` of a new memory
filesystem and reading it back returns `[1, 2]`. -/
theorem C1_writeFile_readFile_roundtrip_witness :
    readFilePath ((writeFilePath (newMemFS 1) ['a'] [1, 2] 436 5).toOption.getD
      (newMemFS 1)) ['a'] = .ok [1, 2] :=
  C1_writeFile_readFile_roundtrip (newMemFS 1) ['a'] [1, 2] 436 5
    ((writeFilePath (newMemFS 1) ['a'] [1, 2] 436 5).toOption.getD (newMemFS 1))
    (by
      simp [wfN, newMemFS, newDirNode, wfChildren, wfChild, Entry.isDir, modeDir]
      decide)
    (by rfl)

end FsGo
